import Mathlib

/-!
Shallow embedding of the cap-table computation engine
(`apps/captable-app/src/lib/storage.ts`) and proofs about it.

Modelling conventions:
* `decimal.js` values (money, prices, exact share arithmetic) are embedded as `ℚ`;
  JavaScript integer share counts (`parseInt` results) as `ℤ`; dates as `ℤ`
  milliseconds since the epoch.
* `Decimal#round` under the configured `ROUND_HALF_UP` mode is `roundHalfUp`
  (nearest, ties away from zero); JavaScript `Math.round` is `jsRound`
  (nearest, ties toward `+∞`); `Math.floor` of a real division is `Int.floor`
  of the rational division.
* JavaScript `Map` objects are association lists with `Map`-faithful
  insert-or-update (`mapSet`) and first-match lookup (`mapGet`).
* `Array.prototype.sort` (stable in modern engines) is `List.insertionSort`
  with the comparator's non-strict order, which produces the same
  stably-sorted list.
* `uuidv4()` is an explicit identifier stream `g : ℕ → String` together with a
  call counter threaded through the handlers in source call order.
* Throwing handlers return `Except String`.
-/

namespace CapTable

/-- JavaScript `Math.round`: nearest integer, ties toward positive infinity. -/
def jsRound (q : ℚ) : ℤ := ⌊q + 1/2⌋

/-- `Decimal#round` with the configured `ROUND_HALF_UP` mode:
nearest integer, ties away from zero. -/
def roundHalfUp (q : ℚ) : ℤ := if 0 ≤ q then ⌊q + 1/2⌋ else -⌊-q + 1/2⌋

/-- `roundShares` from the source: `shares.round().toNumber()`. -/
def roundShares (q : ℚ) : ℤ := roundHalfUp q

/-- Round a money amount to cents, as `Decimal#toFixed(2)` does under
`ROUND_HALF_UP`. -/
def roundCents (q : ℚ) : ℚ := (roundHalfUp (q * 100) : ℚ) / 100

/-- JavaScript `x || d` on a number: `d` when `x` is `0` (falsy), else `x`. -/
def jsOrQ (x : ℚ) (d : ℚ) : ℚ := if x = 0 then d else x

/-- JavaScript `x || d` on an optional numeric field. -/
def jsOrOpt (x : Option ℚ) (d : ℚ) : ℚ :=
  match x with
  | none => d
  | some v => if v = 0 then d else v

/-- JavaScript truthiness test for an optional numeric field
(`if (x)` is taken for a present, non-zero number). -/
def jsTruthy (x : Option ℚ) : Bool :=
  match x with
  | none => false
  | some v => v != 0

-- =============================================================================
-- JavaScript `Map` as an association list
-- =============================================================================

/-- `Map#get` with the source's `|| 0` default. -/
def mapGet (m : List (String × ℤ)) (k : String) : ℤ :=
  ((m.find? (fun p => p.1 == k)).map Prod.snd).getD 0

/-- `Map#set`: update the entry in place if the key is present
(keeping its position), otherwise append a new entry. -/
def mapSet (m : List (String × ℤ)) (k : String) (v : ℤ) : List (String × ℤ) :=
  if m.any (fun p => p.1 == k) then
    m.map (fun p => if p.1 == k then (k, v) else p)
  else
    m ++ [(k, v)]

-- =============================================================================
-- Proportional allocator (`distributeSharesByLargestRemainder`)
-- =============================================================================

/-- One working entry of the allocator: recipient id, exact share,
floored baseline, and fractional remainder. -/
structure AllocEntry where
  id : String
  exact : ℚ
  floor : ℤ
  remainder : ℚ
deriving DecidableEq, Repr

/-- The allocator's working entries: exact share `total × proportion`,
floored baseline and fractional remainder, one per recipient. -/
def allocEntries (totalShares : ℤ) (recipients : List (String × ℚ)) :
    List AllocEntry :=
  recipients.map (fun r =>
    let e := (totalShares : ℚ) * r.2
    { id := r.1, exact := e, floor := ⌊e⌋, remainder := e - ⌊e⌋ })

/-- The shortfall `totalShares − Σ floors` still to be handed out. -/
def allocRemaining (totalShares : ℤ) (recipients : List (String × ℚ)) : ℤ :=
  totalShares - ((allocEntries totalShares recipients).map (fun r => r.floor)).sum

/-- The allocator's result `Map`: baselines from the floors, then one extra
unit per entry of the stable descending-remainder order while shortfall
remains (`i < remaining && i < sorted.length`). -/
def allocResultMap (totalShares : ℤ) (recipients : List (String × ℚ)) :
    List (String × ℤ) :=
  let exactShares := allocEntries totalShares recipients
  let sorted := List.insertionSort (fun a b => b.remainder ≤ a.remainder) exactShares
  let result0 := exactShares.foldl (fun m r => mapSet m r.id r.floor) []
  (sorted.take (allocRemaining totalShares recipients).toNat).foldl
    (fun m r => mapSet m r.id (mapGet m r.id + 1)) result0

/-- The largest-remainder allocator from the source: floor each recipient's
exact share `total × proportion`, then hand out the shortfall one unit at a
time in order of descending fractional remainder (stable on ties). -/
def distributeSharesByLargestRemainder (totalShares : ℤ)
    (recipients : List (String × ℚ)) : List (String × ℤ) :=
  recipients.map (fun r => (r.1, mapGet (allocResultMap totalShares recipients) r.1))

-- =============================================================================
-- Data model (`types.ts`); fields the engine never reads are omitted
-- =============================================================================

inductive PersonType
  | founder | employee | advisor | investor | other | esop_pool
deriving DecidableEq, Repr

inductive ShareClassType
  | common | preferred | option
deriving DecidableEq, Repr

inductive ParticipationType
  | non_participating | participating | capped_participating
deriving DecidableEq, Repr

inductive ValuationType
  | pre_money | post_money
deriving DecidableEq, Repr

/-- The reserved pseudo-holder id for the unallocated option pool. -/
def ESOP_POOL_HOLDER_ID : String := "__esop_pool__"

structure Person where
  id : String
  name : String
  type : PersonType
deriving DecidableEq, Repr

structure ShareClass where
  id : String
  name : String
  type : ShareClassType
  seniorityRank : ℤ
  liquidationPreferenceMultiple : ℚ
  participation : ParticipationType
  participationCapMultiple : Option ℚ := none
  isConvertibleToCommon : Bool
  pricePerShare : Option ℚ := none
deriving DecidableEq, Repr

structure SecurityHolding where
  id : String
  holderId : String
  shareClassId : String
  quantity : ℤ
  sourceEventId : String
  isOption : Bool
  strikePrice : Option ℚ := none
  vestingScheduleId : Option String := none
  vestingStartDate : Option ℤ := none
  grantDate : Option ℤ := none
  investmentAmount : Option ℚ := none
deriving DecidableEq, Repr

structure VestingSchedule where
  id : String
  cliffMonths : ℤ
  totalMonths : ℤ
  initialCliffPercent : ℚ
deriving DecidableEq, Repr

structure SAFE where
  id : String
  investorId : String
  investorName : Option String := none
  principalAmount : ℚ
  valuationType : ValuationType
  valuationCap : Option ℚ := none
  discountPercent : Option ℚ := none
  mostFavoredNation : Bool := false
  issueDate : ℤ
  conversionShareClassId : Option String := none
  convertedInEventId : Option String := none
deriving DecidableEq, Repr

structure CapTableState where
  companyId : String
  asOfEventId : Option String := none
  asOfDate : Option ℤ := none
  shareClasses : List ShareClass := []
  holdings : List SecurityHolding := []
  safes : List SAFE := []
  people : List Person := []
  vestingSchedules : List VestingSchedule := []
deriving DecidableEq, Repr

/-- `createInitialState`. -/
def createInitialState (companyId : String) : CapTableState :=
  { companyId := companyId }

/-- Replace the first element satisfying `p` (the object JavaScript `find`
returns and the handlers mutate in place). -/
def updateFirst (p : α → Bool) (f : α → α) : List α → List α
  | [] => []
  | x :: xs => if p x then f x :: xs else x :: updateFirst p f xs

-- =============================================================================
-- Metrics and financial helpers
-- =============================================================================

/-- `calculatePreRoundMetrics`, restricted to the two aggregate figures the
replay engine reads: `(legalIssuedShares, fullyDilutedShares)`. -/
def calculatePreRoundMetrics (state : CapTableState) : ℚ × ℚ :=
  state.holdings.foldl (fun acc h =>
    let qty : ℚ := (h.quantity : ℚ)
    let legal :=
      match state.shareClasses.find? (fun sc => sc.id == h.shareClassId) with
      | some sc => if sc.type ≠ ShareClassType.option then acc.1 + qty else acc.1
      | none => acc.1
    (legal, acc.2 + qty)) (0, 0)

/-- `getUnallocatedESOPPool`. -/
def getUnallocatedESOPPool (state : CapTableState) : ℤ :=
  match state.holdings.find? (fun h => h.holderId == ESOP_POOL_HOLDER_ID && h.isOption) with
  | some h => h.quantity
  | none => 0

/-- `calculateESOPPoolFromPercent`: throws for a target percentage ≥ 100%. -/
def calculateESOPPoolFromPercent (existingShares : ℚ) (targetPercent : ℚ) :
    Except String ℤ :=
  if 1 ≤ targetPercent then
    Except.error "Target ESOP percentage must be less than 100%"
  else
    Except.ok (roundShares (existingShares * targetPercent / (1 - targetPercent)))

/-- `calculateESOPExtension`; no percentage guard in the source. Faithful for
`targetPercent ≠ 1` (at exactly 1 the source's decimal division produces
`Infinity` rather than a number). -/
def calculateESOPExtension (currentFullyDiluted currentPoolSize : ℚ)
    (targetPercent : ℚ) : ℤ :=
  let nonPoolShares := currentFullyDiluted - currentPoolSize
  let targetPool := nonPoolShares * targetPercent / (1 - targetPercent)
  let extension := targetPool - currentPoolSize
  max 0 (roundShares extension)

structure SAFEConversionResult where
  shares : ℤ
  effectivePrice : ℚ
  method : String
deriving DecidableEq, Repr

/-- `calculateSAFEConversion`: effective price from round price, optional cap
price and optional discount price, then `shares = principal / effectivePrice`
rounded half-up. -/
def calculateSAFEConversion (safe : SAFE) (roundPrice : ℚ) (preRoundFD : ℚ) :
    SAFEConversionResult :=
  let principal := safe.principalAmount
  let capPrice : Option ℚ := safe.valuationCap.map (fun cap => cap / preRoundFD)
  let discountPrice : Option ℚ :=
    match safe.discountPercent with
    | some d => if 0 < d then some (roundPrice * (1 - d / 100)) else none
    | none => none
  let priceMethod : ℚ × String :=
    match capPrice, discountPrice with
    | some cp, some dp => if cp < dp then (cp, "cap") else (dp, "discount")
    | some cp, none => if cp < roundPrice then (cp, "cap") else (roundPrice, "round_price")
    | none, some dp => if dp < roundPrice then (dp, "discount") else (roundPrice, "round_price")
    | none, none => (roundPrice, "round_price")
  { shares := roundShares (principal / priceMethod.1),
    effectivePrice := priceMethod.1,
    method := priceMethod.2 }

/-- Milliseconds per month used by the source's vesting arithmetic
(`30.44 * 24 * 60 * 60 * 1000`). -/
def MONTH_MS : ℚ := 2630016000

/-- `calculateVestedOptions`: cliff then linear monthly vesting, with the
source's `schedule.initialCliffPercent || 25` fallback. -/
def calculateVestedOptions (holding : SecurityHolding) (asOfDate : ℤ)
    (state : CapTableState) : ℤ :=
  match holding.vestingScheduleId with
  | none => holding.quantity
  | some sid =>
    match state.vestingSchedules.find? (fun v => v.id == sid) with
    | none => holding.quantity
    | some schedule =>
      let startDate : ℤ := ((holding.vestingStartDate).orElse (fun _ => holding.grantDate)).getD asOfDate
      let totalOptions : ℤ := holding.quantity
      let monthsElapsed : ℤ := ⌊((asOfDate - startDate : ℤ) : ℚ) / MONTH_MS⌋
      if monthsElapsed < schedule.cliffMonths then 0
      else
        let cliffPercent : ℚ := jsOrQ schedule.initialCliffPercent 25
        let cliffVested : ℤ := ⌊(totalOptions : ℚ) * cliffPercent / 100⌋
        let remainingOptions : ℤ := totalOptions - cliffVested
        let remainingMonths : ℤ := schedule.totalMonths - schedule.cliffMonths
        let monthsAfterCliff : ℤ := monthsElapsed - schedule.cliffMonths
        let postCliffVested : ℤ := min remainingOptions
          ⌊(remainingOptions : ℚ) * (monthsAfterCliff : ℚ) / (remainingMonths : ℚ)⌋
        min totalOptions (cliffVested + postCliffVested)

-- =============================================================================
-- Events
-- =============================================================================

inductive FounderInputMode
  | percentage | shares
deriving DecidableEq, Repr

structure FounderSpec where
  personId : String
  name : String
  percentage : ℚ := 0
  shares : ℤ := 0
deriving DecidableEq, Repr

structure EsopPoolSpec where
  inputMode : FounderInputMode
  percentage : ℚ := 0
  shares : ℤ := 0
deriving DecidableEq, Repr

structure InvestorSpec where
  personId : String
  name : String
  amount : ℚ
deriving DecidableEq, Repr

structure SafeSpec where
  id : Option String := none
  investorId : String
  investorName : String
  principalAmount : ℚ
  valuationType : Option ValuationType := none
  valuationCap : Option ℚ := none
  discountPercent : Option ℚ := none
  mostFavoredNation : Bool := false
  conversionShareClassId : Option String := none
deriving DecidableEq, Repr

inductive ValuationInputType
  | price_per_share | pre_money | post_money
deriving DecidableEq, Repr

structure VestingScheduleSpec where
  cliffMonths : ℤ
  totalMonths : ℤ
  initialCliffPercent : ℚ
deriving DecidableEq, Repr

/-- The typed payloads read by the seven event handlers. -/
inductive EventData
  | incorporation (totalIssuedShares : ℚ) (pricePerShare : Option ℚ)
      (founderInputMode : FounderInputMode) (founders : List FounderSpec)
      (esopPool : Option EsopPoolSpec)
  | pricedRound (valuationInputType : ValuationInputType)
      (postMoneyValuation preMoneyValuation priceInput : Option ℚ)
      (totalNewMoney : ℚ) (investors : List InvestorSpec)
      (shareClassId : Option String) (createNewShareClass : Bool)
      (shareClassName : Option String) (liquidationPreference : Option ℚ)
      (participation : Option ParticipationType) (participationCap : Option ℚ)
      (esopTargetPercent : Option ℚ) (safesToConvert : Option (List String))
  | safeIssuance (safes : List SafeSpec)
  | esopPoolCreation (inputMode : FounderInputMode) (percentage : ℚ) (shares : ℤ)
  | esopPoolExtension (targetPercent : ℚ)
  | esopGrant (employeeId employeeName : String) (grantMode : FounderInputMode)
      (percentage : Option ℚ) (shares : ℤ) (strikePrice : Option ℚ)
      (vestingScheduleId : Option String) (vestingSchedule : Option VestingScheduleSpec)
      (vestingStartDate : Option ℤ)
  | optionExercise (employeeId : String) (shares : ℤ)
deriving DecidableEq, Repr

structure EventBase where
  id : String
  companyId : String
  date : ℤ
  label : String
  data : EventData
deriving DecidableEq, Repr

/-- The `uuidv4()` source: a stream of strings consumed left to right. -/
abbrev Gen := ℕ → String

/-- One `uuidv4()` call: draw the next identifier, advance the counter. -/
def fresh (g : Gen) (k : ℕ) : String × ℕ := (g k, k + 1)

/-- `Series ${String.fromCharCode(65 + n)}`. -/
def seriesName (n : ℕ) : String := "Series " ++ String.singleton (Char.ofNat (65 + n))

-- =============================================================================
-- Event handlers
-- =============================================================================

/-- The `Common` share class created at incorporation. -/
def incorporationCommonClass (commonClassId : String)
    (pricePerShare : Option ℚ) : ShareClass :=
  { id := commonClassId, name := "Common", type := ShareClassType.common,
    seniorityRank := 0, liquidationPreferenceMultiple := 1,
    participation := ParticipationType.non_participating,
    isConvertibleToCommon := false,
    pricePerShare := some (pricePerShare.getD (1/10000)) }

/-- The `Employee Options` share class the handlers create on demand. -/
def employeeOptionsClass (ocid : String) : ShareClass :=
  { id := ocid, name := "Employee Options", type := ShareClassType.option,
    seniorityRank := 0, liquidationPreferenceMultiple := 0,
    participation := ParticipationType.non_participating,
    isConvertibleToCommon := true }

/-- A fresh unallocated-pool holding. -/
def poolHoldingDef (phid classId eventId : String) (q : ℤ) : SecurityHolding :=
  { id := phid, holderId := ESOP_POOL_HOLDER_ID, shareClassId := classId,
    quantity := q, sourceEventId := eventId, isOption := true }

/-- Append a share class to the state. -/
def addShareClass (c : ShareClass) (s : CapTableState) : CapTableState :=
  { s with shareClasses := s.shareClasses ++ [c] }

/-- Append a holding to the state. -/
def appendHolding (h : SecurityHolding) (s : CapTableState) : CapTableState :=
  { s with holdings := s.holdings ++ [h] }

/-- The person record built for a founder. -/
def founderPersonDef (f : FounderSpec) : Person :=
  { id := f.personId, name := f.name, type := PersonType.founder }

/-- The person record built for a cash investor. -/
def investorPersonDef (inv : InvestorSpec) : Person :=
  { id := inv.personId, name := inv.name, type := PersonType.investor }

/-- The person record built for a converting SAFE's investor. -/
def safeInvestorPersonDef (safe : SAFE) : Person :=
  { id := safe.investorId, name := safe.investorName.getD "SAFE Investor",
    type := PersonType.investor }

/-- The person record built for an option grantee. -/
def grantEmployeePerson (employeeId employeeName : String) : Person :=
  { id := employeeId, name := employeeName, type := PersonType.employee }

/-- A founder's common holding at incorporation. -/
def founderHoldingDef (hid : String) (f : FounderSpec) (ccid eid : String)
    (q : ℤ) : SecurityHolding :=
  { id := hid, holderId := f.personId, shareClassId := ccid, quantity := q,
    sourceEventId := eid, isOption := false }

/-- A preferred holding recording a cash amount (priced rounds and SAFE
conversions). -/
def investmentHoldingDef (hid holderId classId eid : String) (q : ℤ)
    (inv : ℚ) : SecurityHolding :=
  { id := hid, holderId := holderId, shareClassId := classId, quantity := q,
    sourceEventId := eid, isOption := false, investmentAmount := some inv }

/-- Mark one SAFE as converted in the given event. -/
def markSafeConverted (safeId eid : String) (s : CapTableState) : CapTableState :=
  let safes := updateFirst (fun x => x.id == safeId)
    (fun x => { x with convertedInEventId := some eid }) s.safes
  { s with safes := safes }

/-- The preferred class created by a priced round. -/
def pricedRoundClassDef (pcid nm : String) (rank : ℤ) (lpm : ℚ)
    (part : ParticipationType) (cap : Option ℚ) (pps : ℚ) : ShareClass :=
  { id := pcid, name := nm, type := ShareClassType.preferred,
    seniorityRank := rank, liquidationPreferenceMultiple := lpm,
    participation := part, participationCapMultiple := cap,
    isConvertibleToCommon := true, pricePerShare := some pps }

/-- `people.find(...) || people.push(...)`: add a person when absent
(the guard-then-push pattern shared by every handler). -/
def ensurePerson (p : Person) (s : CapTableState) : CapTableState :=
  if s.people.any (fun q => q.id == p.id) then s
  else { s with people := s.people ++ [p] }

/-- The unallocated-pool placeholder person the handlers insert. -/
def poolPersonDef : Person :=
  { id := ESOP_POOL_HOLDER_ID, name := "ESOP Pool (Unallocated)",
    type := PersonType.esop_pool }

/-- Find the option share class, creating `Employee Options` when missing
(the find-or-create block of `applyESOPPoolCreation`). -/
def ensureOptionClass (g : Gen) (k : ℕ) (s : CapTableState) :
    ShareClass × CapTableState × ℕ :=
  match s.shareClasses.find? (fun sc => sc.type == ShareClassType.option) with
  | some oc => (oc, s, k)
  | none =>
    let (ocid, k') := fresh g k
    let oc := employeeOptionsClass ocid
    (oc, { s with shareClasses := s.shareClasses ++ [oc] }, k')

/-- Add shares to the unallocated pool holding, creating it when missing
(the update-or-push block of `applyESOPPoolCreation`). -/
def addPoolHolding (g : Gen) (k : ℕ) (s : CapTableState) (eventId : String)
    (classId : String) (poolShares : ℤ) : CapTableState × ℕ :=
  if s.holdings.any (fun h => h.holderId == ESOP_POOL_HOLDER_ID &&
      h.shareClassId == classId) then
    let holdings := updateFirst
      (fun h => h.holderId == ESOP_POOL_HOLDER_ID && h.shareClassId == classId)
      (fun h => { h with quantity := h.quantity + poolShares }) s.holdings
    ({ s with holdings := holdings }, k)
  else
    let (phid, k') := fresh g k
    ({ s with holdings := s.holdings ++ [poolHoldingDef phid classId eventId poolShares] }, k')

/-- The incorporation pool person is added up front when a pool is given. -/
def addPoolPersonIfEsop (esopPool : Option EsopPoolSpec) (s : CapTableState) :
    CapTableState :=
  if esopPool.isSome then { s with people := s.people ++ [poolPersonDef] }
  else s

/-- The founder share allocation of `applyIncorporation` (pure in the
payload). -/
def incorporationAllocations (tis : ℚ) (fim : FounderInputMode)
    (founders : List FounderSpec) : List (String × ℤ) :=
  match fim with
  | FounderInputMode.percentage =>
    distributeSharesByLargestRemainder (roundShares tis)
      (founders.map (fun f => (f.personId, f.percentage / 100)))
  | FounderInputMode.shares => founders.map (fun f => (f.personId, f.shares))

/-- One founder of the `applyIncorporation` loop: ensure the person and
append the allocated common holding. -/
def incorporationFounderStep (g : Gen) (commonClassId eventId : String)
    (founderAllocations : List (String × ℤ)) (acc : CapTableState × ℕ)
    (f : FounderSpec) : CapTableState × ℕ :=
  let st := ensurePerson (founderPersonDef f) acc.1
  let (hid, k') := fresh g acc.2
  (appendHolding
    (founderHoldingDef hid f commonClassId eventId
      (((founderAllocations.find? (fun a => a.1 == f.personId)).map
        Prod.snd).getD 0)) st, k')

/-- `applyIncorporation`. -/
def applyIncorporation (g : Gen) (k : ℕ) (state : CapTableState) (event : EventBase)
    (totalIssuedShares : ℚ) (pricePerShare : Option ℚ)
    (founderInputMode : FounderInputMode) (founders : List FounderSpec)
    (esopPool : Option EsopPoolSpec) : Except String (CapTableState × ℕ) :=
  let (commonClassId, k) := fresh g k
  let state := addShareClass (incorporationCommonClass commonClassId pricePerShare) state
  let state := addPoolPersonIfEsop esopPool state
  let founderAllocations := incorporationAllocations totalIssuedShares founderInputMode founders
  let stk := founders.foldl
    (incorporationFounderStep g commonClassId event.id founderAllocations) (state, k)
  let state := stk.1
  let k := stk.2
  match esopPool with
  | none => Except.ok (state, k)
  | some pool =>
    let (optionClassId, k) := fresh g k
    let state := addShareClass (employeeOptionsClass optionClassId) state
    let esopSharesE : Except String ℤ :=
      match pool.inputMode with
      | FounderInputMode.percentage =>
        calculateESOPPoolFromPercent
          (((founderAllocations.map Prod.snd).sum : ℤ) : ℚ) (pool.percentage / 100)
      | FounderInputMode.shares => Except.ok pool.shares
    match esopSharesE with
    | Except.error e => Except.error e
    | Except.ok esopShares =>
      let (phid, k) := fresh g k
      Except.ok
        (appendHolding (poolHoldingDef phid optionClassId event.id esopShares) state, k)

/-- `applySAFEIssuance`. -/
def applySAFEIssuance (g : Gen) (k : ℕ) (state : CapTableState) (event : EventBase)
    (safes : List SafeSpec) : Except String (CapTableState × ℕ) :=
  Except.ok (safes.foldl (fun (acc : CapTableState × ℕ) safe =>
    let st := acc.1
    let investorPerson : Person :=
      { id := safe.investorId, name := safe.investorName, type := PersonType.investor }
    let st :=
      if st.people.any (fun p => p.id == safe.investorId) then st
      else { st with people := st.people ++ [investorPerson] }
    let idk : String × ℕ :=
      match safe.id with
      | some i => (i, acc.2)
      | none => fresh g acc.2
    let newSafe : SAFE :=
      { id := idk.1, investorId := safe.investorId,
        investorName := some safe.investorName,
        principalAmount := safe.principalAmount,
        valuationType := safe.valuationType.getD ValuationType.post_money,
        valuationCap := safe.valuationCap, discountPercent := safe.discountPercent,
        mostFavoredNation := safe.mostFavoredNation, issueDate := event.date,
        conversionShareClassId := safe.conversionShareClassId }
    ({ st with safes := st.safes ++ [newSafe] }, idk.2))
    (state, k))

/-- `applyESOPPoolCreation`. -/
def applyESOPPoolCreation (g : Gen) (k : ℕ) (state : CapTableState) (event : EventBase)
    (inputMode : FounderInputMode) (percentage : ℚ) (shares : ℤ) :
    Except String (CapTableState × ℕ) :=
  let state := ensurePerson poolPersonDef state
  let ock := ensureOptionClass g k state
  let optionClass := ock.1
  let state := ock.2.1
  let k := ock.2.2
  let poolSharesE : Except String ℤ :=
    match inputMode with
    | FounderInputMode.percentage =>
      calculateESOPPoolFromPercent (calculatePreRoundMetrics state).1 (percentage / 100)
    | FounderInputMode.shares => Except.ok shares
  match poolSharesE with
  | Except.error e => Except.error e
  | Except.ok poolShares =>
    Except.ok (addPoolHolding g k state event.id optionClass.id poolShares)

/-- `applyESOPPoolExtension`: recompute the target pool and add any positive
shortfall; note the absence of a 100% guard and of any thrown error. -/
def applyESOPPoolExtension (state : CapTableState) (targetPercent : ℚ) :
    Except String CapTableState :=
  let metrics := calculatePreRoundMetrics state
  let currentPool := getUnallocatedESOPPool state
  let extension := calculateESOPExtension metrics.2 (currentPool : ℚ) (targetPercent / 100)
  if 0 < extension then
    let pred : SecurityHolding → Bool :=
      match state.shareClasses.find? (fun sc => sc.type == ShareClassType.option) with
      | some oc => fun h => h.holderId == ESOP_POOL_HOLDER_ID && h.shareClassId == oc.id
      | none => fun _ => false
    let holdings := updateFirst pred
      (fun h => { h with quantity := h.quantity + extension }) state.holdings
    Except.ok { state with holdings := holdings }
  else Except.ok state

/-- The pool-deduction check of `applyESOPGrant`: error when the pool is
too small, otherwise subtract the granted shares from the pool holding. -/
def deductPool (state : CapTableState) (optionClassId : String)
    (grantShares : ℤ) : Except String CapTableState :=
  match state.holdings.find? (fun h =>
      h.holderId == ESOP_POOL_HOLDER_ID && h.shareClassId == optionClassId) with
  | some poolHolding =>
    if poolHolding.quantity < grantShares then
      Except.error "Insufficient ESOP pool."
    else
      let holdings := updateFirst
        (fun h => h.holderId == ESOP_POOL_HOLDER_ID && h.shareClassId == optionClassId)
        (fun h => { h with quantity := poolHolding.quantity - grantShares })
        state.holdings
      Except.ok { state with holdings := holdings }
  | none => Except.ok state

/-- The inline-vesting-schedule branch of `applyESOPGrant`: a new schedule is
created only when one is supplied inline and no existing id is given. -/
def addGrantSchedule (g : Gen) (k : ℕ) (state : CapTableState)
    (vestingScheduleIdOpt : Option String)
    (vestingScheduleOpt : Option VestingScheduleSpec) :
    Option String × CapTableState × ℕ :=
  match vestingScheduleOpt, vestingScheduleIdOpt with
  | some vs, none =>
    let (vsid, k') := fresh g k
    let schedule : VestingSchedule :=
      { id := vsid, cliffMonths := vs.cliffMonths, totalMonths := vs.totalMonths,
        initialCliffPercent := vs.initialCliffPercent }
    (some vsid,
      { state with vestingSchedules := state.vestingSchedules ++ [schedule] }, k')
  | _, _ => (vestingScheduleIdOpt, state, k)

/-- `applyESOPGrant`. -/
def applyESOPGrant (g : Gen) (k : ℕ) (state : CapTableState) (event : EventBase)
    (employeeId employeeName : String) (grantMode : FounderInputMode)
    (percentage : Option ℚ) (shares : ℤ) (strikePrice : Option ℚ)
    (vestingScheduleIdOpt : Option String) (vestingScheduleOpt : Option VestingScheduleSpec)
    (vestingStartDateOpt : Option ℤ) : Except String (CapTableState × ℕ) :=
  let state := ensurePerson (grantEmployeePerson employeeId employeeName) state
  match state.shareClasses.find? (fun sc => sc.type == ShareClassType.option) with
  | none => Except.error "No option share class exists. Create an ESOP pool first."
  | some optionClass =>
    let grantShares : ℤ :=
      if grantMode == FounderInputMode.percentage && jsTruthy percentage then
        let targetPercent := (percentage.getD 0) / 100
        jsRound (targetPercent * (calculatePreRoundMetrics state).2 / (1 - targetPercent))
      else shares
    match deductPool state optionClass.id grantShares with
    | Except.error e => Except.error e
    | Except.ok state =>
      let vsk := addGrantSchedule g k state vestingScheduleIdOpt vestingScheduleOpt
      let vestingScheduleId := vsk.1
      let state := vsk.2.1
      let k := vsk.2.2
      let (hid, k) := fresh g k
      let grantHolding : SecurityHolding :=
        { id := hid, holderId := employeeId, shareClassId := optionClass.id,
          quantity := grantShares, sourceEventId := event.id, isOption := true,
          strikePrice := strikePrice, vestingScheduleId := vestingScheduleId,
          vestingStartDate := some (vestingStartDateOpt.getD event.date),
          grantDate := some event.date }
      Except.ok ({ state with holdings := state.holdings ++ [grantHolding] }, k)

/-- `applyOptionExercise`. -/
def applyOptionExercise (g : Gen) (k : ℕ) (state : CapTableState) (event : EventBase)
    (employeeId : String) (shares : ℤ) : Except String (CapTableState × ℕ) :=
  match state.shareClasses.find? (fun sc => sc.type == ShareClassType.option),
        state.shareClasses.find? (fun sc => sc.type == ShareClassType.common) with
  | some optionClass, some commonClass =>
    match state.holdings.find? (fun h => h.holderId == employeeId &&
        h.shareClassId == optionClass.id && h.isOption) with
    | none => Except.error "Employee has no option holdings"
    | some optionHolding =>
      let exerciseShares := shares
      let currentOptions := optionHolding.quantity
      let vestedOptions := calculateVestedOptions optionHolding event.date state
      if vestedOptions < exerciseShares then
        Except.error "Insufficient vested options."
      else
        let holdings := updateFirst
          (fun h => h.holderId == employeeId && h.shareClassId == optionClass.id && h.isOption)
          (fun h => { h with quantity := currentOptions - exerciseShares }) state.holdings
        let state := { state with holdings := holdings }
        match state.holdings.find? (fun h => h.holderId == employeeId &&
            h.shareClassId == commonClass.id && !h.isOption) with
        | some _ =>
          let holdings := updateFirst
            (fun h => h.holderId == employeeId && h.shareClassId == commonClass.id && !h.isOption)
            (fun h => { h with quantity := h.quantity + exerciseShares }) state.holdings
          Except.ok ({ state with holdings := holdings }, k)
        | none =>
          let (hid, k) := fresh g k
          let newCommon : SecurityHolding :=
            { id := hid, holderId := employeeId, shareClassId := commonClass.id,
              quantity := exerciseShares, sourceEventId := event.id, isOption := false }
          Except.ok ({ state with holdings := state.holdings ++ [newCommon] }, k)
  | _, _ => Except.error "Option or common share class not found"

-- =============================================================================
-- Priced round
-- =============================================================================

/-- The inner per-iteration SAFE share estimate of the post-money price
solver (lines 1014–1044 of the source): a left fold over the converting
SAFEs, accumulating shares at the current price. -/
def computeSafeSharesEstimate (convertingSafes : List SAFE)
    (preRoundFD totalNewShares pricePerShare : ℚ) : ℚ :=
  convertingSafes.foldl (fun acc safe =>
    let principal := safe.principalAmount
    match safe.valuationType, safe.valuationCap with
    | ValuationType.post_money, some cap =>
      let ownershipPercent := principal / cap
      let totalSharesEstimate := preRoundFD + totalNewShares + acc
      acc + totalSharesEstimate * ownershipPercent / (1 - ownershipPercent)
    | _, _ =>
      let e1 : ℚ :=
        match safe.valuationCap with
        | some cap =>
          let capPrice := cap / preRoundFD
          if capPrice < pricePerShare then capPrice else pricePerShare
        | none => pricePerShare
      let effectivePrice : ℚ :=
        match safe.discountPercent with
        | some d =>
          if 0 < d then
            let discountPrice := pricePerShare * (1 - d / 100)
            if discountPrice < e1 then discountPrice else e1
          else e1
        | none => e1
      acc + principal / effectivePrice) 0

/-- The post-money fixed-point iteration: at most ten rounds, stopping early
when the price moves by less than `0.0001`. -/
def iterateRoundPrice (convertingSafes : List SAFE)
    (preRoundFD totalCash postMoney : ℚ) : ℚ → ℕ → ℚ
  | price, 0 => price
  | price, n + 1 =>
    let totalNewShares := totalCash / price
    let totalSafeShares :=
      computeSafeSharesEstimate convertingSafes preRoundFD totalNewShares price
    let totalSharesAfter := preRoundFD + totalNewShares + totalSafeShares
    let newPrice := postMoney / totalSharesAfter
    if |newPrice - price| < 1/10000 then newPrice
    else iterateRoundPrice convertingSafes preRoundFD totalCash postMoney newPrice n

/-- One SAFE of the `applyPricedRound` conversion loop. -/
def convertSafeStep (g : Gen) (preferredClassId eventId : String)
    (pricePerShare preRoundFD : ℚ) (acc : CapTableState × ℕ) (safeId : String) :
    CapTableState × ℕ :=
  let st := acc.1
  match st.safes.find? (fun s => s.id == safeId) with
  | none => acc
  | some safe =>
    if safe.convertedInEventId.isSome then acc
    else
      let conversionResult := calculateSAFEConversion safe pricePerShare preRoundFD
      let st := ensurePerson (safeInvestorPersonDef safe) st
      let (hid, k') := fresh g acc.2
      let st := appendHolding
        (investmentHoldingDef hid safe.investorId preferredClassId eventId
          conversionResult.shares safe.principalAmount) st
      (markSafeConverted safeId eventId st, k')

/-- One cash investor of the `applyPricedRound` investment loop. -/
def addInvestorStep (g : Gen) (preferredClassId eventId : String)
    (distribution : List (String × ℤ)) (acc : CapTableState × ℕ)
    (inv : InvestorSpec) : CapTableState × ℕ :=
  let st := ensurePerson (investorPersonDef inv) acc.1
  let (hid, k') := fresh g acc.2
  (appendHolding
    (investmentHoldingDef hid inv.personId preferredClassId eventId
      (((distribution.find? (fun d => d.1 == inv.personId)).map Prod.snd).getD 0)
      inv.amount) st, k')

/-- The post-round ESOP top-up block of `applyPricedRound`. -/
def pricedRoundEsopTopUp (state : CapTableState)
    (esopTargetPercent : Option ℚ) : CapTableState :=
  if jsTruthy esopTargetPercent then
    match state.shareClasses.find? (fun sc => sc.type == ShareClassType.option) with
    | none => state
    | some _ =>
      let postRoundFD := (calculatePreRoundMetrics state).2
      let currentPool := getUnallocatedESOPPool state
      let extension := calculateESOPExtension postRoundFD (currentPool : ℚ)
        ((esopTargetPercent.getD 0) / 100)
      if 0 < extension then
        let holdings := updateFirst
          (fun h => h.holderId == ESOP_POOL_HOLDER_ID && h.isOption)
          (fun h => { h with quantity := h.quantity + extension }) state.holdings
        { state with holdings := holdings }
      else state
  else state

/-- `applyPricedRound`. -/
def applyPricedRound (g : Gen) (k : ℕ) (state : CapTableState) (event : EventBase)
    (valuationInputType : ValuationInputType)
    (postMoneyValuation preMoneyValuation priceInput : Option ℚ)
    (totalNewMoney : ℚ) (investors : List InvestorSpec)
    (shareClassIdOpt : Option String) (createNewShareClass : Bool)
    (shareClassName : Option String) (liquidationPreference : Option ℚ)
    (participationOpt : Option ParticipationType) (participationCap : Option ℚ)
    (esopTargetPercent : Option ℚ) (safesToConvertOpt : Option (List String)) :
    Except String (CapTableState × ℕ) :=
  let preRoundFD := (calculatePreRoundMetrics state).2
  let safesToConvert := safesToConvertOpt.getD
    ((state.safes.filter (fun s => s.convertedInEventId.isNone)).map (fun s => s.id))
  let convertingSafes := (safesToConvert.filterMap
    (fun i => state.safes.find? (fun s => s.id == i))).filter
    (fun s => s.convertedInEventId.isNone)
  let totalCashInvestment := totalNewMoney
  let pricePerShare : ℚ :=
    match valuationInputType with
    | ValuationInputType.price_per_share => priceInput.getD 0
    | ValuationInputType.pre_money => (preMoneyValuation.getD 0) / preRoundFD
    | ValuationInputType.post_money =>
      let pm := postMoneyValuation.getD 0
      iterateRoundPrice convertingSafes preRoundFD totalCashInvestment pm
        ((pm - totalCashInvestment) / preRoundFD) 10
  let pk :=
    if shareClassIdOpt.isNone || createNewShareClass then
      let (pcid, k') := fresh g k
      let existingPreferredCount :=
        (state.shareClasses.filter (fun sc => sc.type == ShareClassType.preferred)).length
      let newClass := pricedRoundClassDef pcid
        (shareClassName.getD (seriesName existingPreferredCount))
        (existingPreferredCount + 1) (jsOrOpt liquidationPreference 1)
        (participationOpt.getD ParticipationType.non_participating)
        participationCap pricePerShare
      (pcid, addShareClass newClass state, k')
    else (shareClassIdOpt.getD "", state, k)
  let preferredClassId := pk.1
  let state := pk.2.1
  let k := pk.2.2
  let stk := safesToConvert.foldl
    (convertSafeStep g preferredClassId event.id pricePerShare preRoundFD) (state, k)
  let state := stk.1
  let k := stk.2
  let investorsF := investors.filter (fun inv => 0 < inv.amount)
  let totalCashActual := (investorsF.map (fun i => i.amount)).sum
  let totalNewShares := if totalCashActual = 0 then 0 else totalCashActual / pricePerShare
  let stk2 :=
    if investorsF = [] ∨ totalCashActual = 0 then (state, k)
    else
      let distribution := distributeSharesByLargestRemainder (roundShares totalNewShares)
        (investorsF.map (fun inv => (inv.personId, inv.amount / totalCashActual)))
      investorsF.foldl
        (addInvestorStep g preferredClassId event.id distribution) (state, k)
  let state := stk2.1
  let k := stk2.2
  Except.ok (pricedRoundEsopTopUp state esopTargetPercent, k)

-- =============================================================================
-- Dispatch and replay
-- =============================================================================

/-- `applyEvent`: deep-copy the state (pure here), stamp the as-of markers,
dispatch on the event type. -/
def stampAsOf (event : EventBase) (s : CapTableState) : CapTableState :=
  { s with asOfEventId := some event.id, asOfDate := some event.date }

def applyEvent (g : Gen) (state : CapTableState) (event : EventBase) (k : ℕ) :
    Except String (CapTableState × ℕ) :=
  let newState := stampAsOf event state
  match event.data with
  | EventData.incorporation a b c d e =>
    applyIncorporation g k newState event a b c d e
  | EventData.pricedRound a b c d e f h i j l m n o p =>
    applyPricedRound g k newState event a b c d e f h i j l m n o p
  | EventData.safeIssuance s => applySAFEIssuance g k newState event s
  | EventData.esopPoolCreation a b c => applyESOPPoolCreation g k newState event a b c
  | EventData.esopPoolExtension t =>
    (applyESOPPoolExtension newState t).map (fun s => (s, k))
  | EventData.esopGrant a b c d e f h i j =>
    applyESOPGrant g k newState event a b c d e f h i j
  | EventData.optionExercise a b => applyOptionExercise g k newState event a b

structure Snapshot where
  eventId : String
  date : ℤ
  label : String
  state : CapTableState
deriving DecidableEq, Repr

structure ReplayResult where
  finalState : CapTableState
  snapshots : List Snapshot
deriving DecidableEq, Repr

/-- `replayAllEvents`: stable sort by date, left fold from the empty state,
one snapshot per event. A handler failure aborts the whole replay. -/
def replayStep (g : Gen)
    (acc : Except String (CapTableState × ℕ × List Snapshot))
    (event : EventBase) : Except String (CapTableState × ℕ × List Snapshot) :=
  match acc with
  | Except.error e => Except.error e
  | Except.ok (st, k, snaps) =>
    match applyEvent g st event k with
    | Except.error e => Except.error e
    | Except.ok (st2, k2) =>
      let snap : Snapshot :=
        { eventId := event.id, date := event.date, label := event.label, state := st2 }
      Except.ok (st2, k2, snaps ++ [snap])

def replayAllEvents (g : Gen) (companyId : String) (events : List EventBase) :
    Except String ReplayResult :=
  let sortedEvents := List.insertionSort (fun a b => a.date ≤ b.date) events
  let folded := sortedEvents.foldl (replayStep g)
    (Except.ok (createInitialState companyId, 0, []))
  folded.map (fun r => { finalState := r.1, snapshots := r.2.2 })

-- =============================================================================
-- Exit waterfall
-- =============================================================================

/-- Generic association-list lookup mirroring `Map#get`. -/
def alGet (m : List (String × α)) (k : String) : Option α :=
  (m.find? (fun p => p.1 == k)).map Prod.snd

/-- Generic `Map#set`: update in place when present, else append. -/
def alSet (m : List (String × α)) (k : String) (v : α) : List (String × α) :=
  if m.any (fun p => p.1 == k) then
    m.map (fun p => if p.1 == k then (k, v) else p)
  else
    m ++ [(k, v)]

/-- `[...new Set(arr)]`: deduplicate keeping first occurrences. -/
def dedupKeepFirst (l : List String) : List String :=
  l.foldl (fun acc s => if acc.any (fun t => t == s) then acc else acc ++ [s]) []

/-- Sum of all share quantities held in one share class
(the `classTotals` record of the source). -/
def classTotal (holdings : List SecurityHolding) (classId : String) : ℚ :=
  ((holdings.filter (fun h => h.shareClassId == classId)).map
    (fun h => (h.quantity : ℚ))).sum

/-- Sum of one holder's recorded investment amounts
(the `holderInvestments` record of the source). -/
def holderInvestment (holdings : List SecurityHolding) (holderId : String) : ℚ :=
  ((holdings.filter (fun h => h.holderId == holderId)).map
    (fun h => h.investmentAmount.getD 0)).sum

/-- Total common-equivalent shares: every non-option class's total. -/
def totalCommonEquivalentOf (state : CapTableState) : ℚ :=
  (state.shareClasses.filter (fun sc => sc.type != ShareClassType.option)).foldl
    (fun acc sc => acc + classTotal state.holdings sc.id) 0

/-- Per-holder liquidation preference for one holding of a preferred class:
`shares × pricePerShare × (liquidationPreferenceMultiple || 1)`. -/
def holderPreferenceAmount (prefClass : ShareClass) (holding : SecurityHolding) : ℚ :=
  (holding.quantity : ℚ) * (prefClass.pricePerShare.getD 0) *
    jsOrQ prefClass.liquidationPreferenceMultiple 1

/-- Per-holder as-converted value for one holding:
`exitValue × shares / totalCommonEquivalent`. -/
def holderConversionAmount (exitValue totalCommonEquivalent : ℚ)
    (holding : SecurityHolding) : ℚ :=
  exitValue * (holding.quantity : ℚ) / totalCommonEquivalent

/-- The amount and method label one preferred holding receives in the
preference stage (source lines 1765–1790): a `'participating'` class pays the
bare preference; otherwise the larger of preference and as-converted value. -/
def waterfallHolderProceeds (exitValue totalCommonEquivalent : ℚ)
    (prefClass : ShareClass) (holding : SecurityHolding) : ℚ × String :=
  let holderPreference := holderPreferenceAmount prefClass holding
  let holderConversion := holderConversionAmount exitValue totalCommonEquivalent holding
  if prefClass.participation = ParticipationType.participating then
    (holderPreference, "participating")
  else if holderConversion < holderPreference then (holderPreference, "preference")
  else (holderConversion, "conversion")

/-- Add proceeds and a method label to one holder's running distribution
entry, creating the entry when absent. -/
def distAdd (m : List (String × (ℚ × List String))) (k : String) (amt : ℚ)
    (meth : String) : List (String × (ℚ × List String)) :=
  match alGet m k with
  | some pv => alSet m k (pv.1 + amt, pv.2 ++ [meth])
  | none => m ++ [(k, (amt, [meth]))]

/-- Stage 1 of the waterfall: preferred classes in descending seniority,
skipping empty classes, paying each holding via `waterfallHolderProceeds`. -/
def payPreferences (exitValue totalCommonEquivalent : ℚ) (exitState : CapTableState)
    (preferredClasses : List ShareClass) : List (String × (ℚ × List String)) :=
  preferredClasses.foldl (fun dist prefClass =>
    if classTotal exitState.holdings prefClass.id = 0 then dist
    else
      (exitState.holdings.filter (fun h => h.shareClassId == prefClass.id)).foldl
        (fun dist holding =>
          let pm := waterfallHolderProceeds exitValue totalCommonEquivalent
            prefClass holding
          distAdd dist holding.holderId pm.1 pm.2) dist) []

structure ExitDistribution where
  holderId : String
  holderName : String
  holderType : PersonType
  proceeds : ℚ
  percentOfExit : ℚ
  investmentAmount : ℚ
  multiple : Option ℚ
  method : List String
deriving DecidableEq, Repr

structure ExitWaterfall where
  exitValuation : ℚ
  distributions : List ExitDistribution
  totalDistributed : ℚ
deriving DecidableEq, Repr

/-- The SAFE pre-step of the exit waterfall (source lines 1656–1724):
convert each still-outstanding SAFE at the implied exit price into the most
senior preferred class (or a fresh `SAFE Conversion` class). -/
def exitConvertSafes (g : Gen) (k : ℕ) (state : CapTableState) (exitValue : ℚ) :
    CapTableState × ℕ :=
  let unconverted := state.safes.filter (fun s => s.convertedInEventId.isNone)
  if unconverted.isEmpty then (state, k)
  else
    let preExitFD := (state.holdings.map (fun h => (h.quantity : ℚ))).sum
    let existingPreferred :=
      state.shareClasses.filter (fun sc => sc.type == ShareClassType.preferred)
    let cidsk : String × CapTableState × ℕ :=
      if existingPreferred.isEmpty then
        let (cid, k') := fresh g k
        let safeClass : ShareClass :=
          { id := cid, name := "SAFE Conversion", type := ShareClassType.preferred,
            seniorityRank := 1, liquidationPreferenceMultiple := 1,
            participation := ParticipationType.non_participating,
            isConvertibleToCommon := true,
            pricePerShare := some (exitValue / preExitFD) }
        (cid, { state with shareClasses := state.shareClasses ++ [safeClass] }, k')
      else
        let sortedPref := List.insertionSort
          (fun a b => b.seniorityRank ≤ a.seniorityRank) existingPreferred
        (((sortedPref.head?).map (fun c => c.id)).getD "", state, k)
    let safeConversionClassId := cidsk.1
    let exitPricePerShare := exitValue / preExitFD
    unconverted.foldl (fun (acc : CapTableState × ℕ) safe =>
      let st := acc.1
      let principal := safe.principalAmount
      let e1 : ℚ :=
        match safe.valuationCap with
        | some cap =>
          let capPrice := cap / preExitFD
          if capPrice < exitPricePerShare then capPrice else exitPricePerShare
        | none => exitPricePerShare
      let effectivePrice : ℚ :=
        match safe.discountPercent with
        | some d =>
          if 0 < d then
            let discountPrice := exitPricePerShare * (1 - d / 100)
            if discountPrice < e1 then discountPrice else e1
          else e1
        | none => e1
      let shares := roundShares (principal / effectivePrice)
      let investorPerson : Person :=
        { id := safe.investorId, name := safe.investorName.getD "SAFE Investor",
          type := PersonType.investor }
      let st :=
        if st.people.any (fun p => p.id == safe.investorId) then st
        else { st with people := st.people ++ [investorPerson] }
      let (hid, k') := fresh g acc.2
      let newHolding : SecurityHolding :=
        { id := hid, holderId := safe.investorId,
          shareClassId := safeConversionClassId, quantity := shares,
          sourceEventId := "", isOption := false,
          investmentAmount := some safe.principalAmount }
      ({ st with holdings := st.holdings ++ [newHolding] }, k'))
      (cidsk.2.1, cidsk.2.2)

/-- The holdings of the common class (excluding options), stage 3's targets. -/
def commonHoldingsOf (exitState : CapTableState) : List SecurityHolding :=
  exitState.holdings.filter (fun h =>
    match exitState.shareClasses.find? (fun s => s.id == h.shareClassId) with
    | some sc => sc.type == ShareClassType.common && !h.isOption
    | none => false)

/-- Stages 2–3: preference payouts then pro-rata common distribution, as the
holder-keyed distributions map. -/
def waterfallDistributions (exitState : CapTableState) (exitValue : ℚ) :
    List (String × (ℚ × List String)) :=
  let preferredClasses := List.insertionSort
    (fun a b => b.seniorityRank ≤ a.seniorityRank)
    (exitState.shareClasses.filter (fun sc => sc.type == ShareClassType.preferred))
  let totalCommonEquivalent := totalCommonEquivalentOf exitState
  let distributions0 :=
    payPreferences exitValue totalCommonEquivalent exitState preferredClasses
  let commonHoldings := commonHoldingsOf exitState
  let totalCommon := ((commonHoldings.map (fun h => (h.quantity : ℚ))).sum)
  let preferenceTotal := (distributions0.map (fun p => p.2.1)).sum
  let remainingProceeds := max (exitValue - preferenceTotal) 0
  commonHoldings.foldl (fun dist holding =>
    let holderProceeds :=
      if totalCommon = 0 then 0
      else remainingProceeds * (holding.quantity : ℚ) / totalCommon
    distAdd dist holding.holderId holderProceeds "common") distributions0

/-- Build the per-person result rows (source lines 1819–1838), skipping the
pool sentinel and people without a distribution entry. -/
def waterfallRows (exitState : CapTableState) (exitValue : ℚ)
    (distributions : List (String × (ℚ × List String))) : List ExitDistribution :=
  exitState.people.foldl (fun rows person =>
    if person.id == ESOP_POOL_HOLDER_ID then rows
    else
      match alGet distributions person.id with
      | none => rows
      | some pv =>
        let investment := holderInvestment exitState.holdings person.id
        let row : ExitDistribution :=
          { holderId := person.id, holderName := person.name,
            holderType := person.type,
            proceeds := roundCents pv.1,
            percentOfExit := roundCents (pv.1 / exitValue * 100),
            investmentAmount := investment,
            multiple := if investment = 0 then none
              else some (roundCents (pv.1 / investment)),
            method := dedupKeepFirst pv.2 }
        rows ++ [row]) []

/-- `calculateExitWaterfall`: convert outstanding SAFEs at the implied exit
price, pay seniority-ranked liquidation preferences (or as-converted values),
distribute the remainder pro rata to common, and report per-holder rows
(proceeds rounded to cents) sorted by descending proceeds together with their
sum. -/
def calculateExitWaterfall (g : Gen) (k : ℕ) (state : CapTableState)
    (exitValuation : ℚ) : ExitWaterfall :=
  let exitState := (exitConvertSafes g k state exitValuation).1
  let distributions := waterfallDistributions exitState exitValuation
  let results := waterfallRows exitState exitValuation distributions
  let sortedResults := List.insertionSort (fun a b => b.proceeds ≤ a.proceeds) results
  { exitValuation := exitValuation,
    distributions := sortedResults,
    totalDistributed := sortedResults.foldl (fun s r => s + r.proceeds) 0 }

-- =============================================================================
-- Identifier renamings (for the replay-determinism analysis)
-- =============================================================================

/-- Apply a renaming to the identifier fields of a person. -/
def mapPerson (ρ : String → String) (p : Person) : Person :=
  { p with id := ρ p.id }

/-- Apply a renaming to the identifier fields of a share class. -/
def mapShareClass (ρ : String → String) (sc : ShareClass) : ShareClass :=
  { sc with id := ρ sc.id }

/-- Apply a renaming to the identifier fields of a holding. -/
def mapHolding (ρ : String → String) (h : SecurityHolding) : SecurityHolding :=
  { h with
    id := ρ h.id, holderId := ρ h.holderId, shareClassId := ρ h.shareClassId,
    sourceEventId := ρ h.sourceEventId,
    vestingScheduleId := h.vestingScheduleId.map ρ }

/-- Apply a renaming to the identifier fields of a SAFE. -/
def mapSafe (ρ : String → String) (s : SAFE) : SAFE :=
  { s with
    id := ρ s.id, investorId := ρ s.investorId,
    conversionShareClassId := s.conversionShareClassId.map ρ,
    convertedInEventId := s.convertedInEventId.map ρ }

/-- Apply a renaming to the identifier fields of a vesting schedule. -/
def mapVestingSchedule (ρ : String → String) (v : VestingSchedule) : VestingSchedule :=
  { v with id := ρ v.id }

/-- Apply a renaming to every identifier field of a state. -/
def mapState (ρ : String → String) (s : CapTableState) : CapTableState :=
  { companyId := ρ s.companyId, asOfEventId := s.asOfEventId.map ρ,
    asOfDate := s.asOfDate,
    shareClasses := s.shareClasses.map (mapShareClass ρ),
    holdings := s.holdings.map (mapHolding ρ),
    safes := s.safes.map (mapSafe ρ),
    people := s.people.map (mapPerson ρ),
    vestingSchedules := s.vestingSchedules.map (mapVestingSchedule ρ) }

/-- Apply a renaming to a snapshot's state. -/
def mapSnapshot (ρ : String → String) (s : Snapshot) : Snapshot :=
  { s with state := mapState ρ s.state }

/-- Apply a renaming to a replay result. -/
def mapReplayResult (ρ : String → String) (r : ReplayResult) : ReplayResult :=
  { finalState := mapState ρ r.finalState,
    snapshots := r.snapshots.map (mapSnapshot ρ) }

/-- Apply a renaming to a fold accumulator (state, counter, snapshots). -/
def mapAccum (ρ : String → String) (r : CapTableState × ℕ × List Snapshot) :
    CapTableState × ℕ × List Snapshot :=
  (mapState ρ r.1, r.2.1, r.2.2.map (mapSnapshot ρ))

/-- All identifier-valued strings an event's payload can inject into the
state or compare against state identifiers. -/
def eventDataIds : EventData → List String
  | EventData.incorporation _ _ _ founders _ => founders.map (fun f => f.personId)
  | EventData.pricedRound _ _ _ _ _ investors shareClassId _ _ _ _ _ _ safesToConvert =>
    investors.map (fun i => i.personId) ++ shareClassId.toList ++ safesToConvert.getD []
  | EventData.safeIssuance safes =>
    safes.foldr (fun s acc =>
      s.id.toList ++ [s.investorId] ++ s.conversionShareClassId.toList ++ acc) []
  | EventData.esopPoolCreation _ _ _ => []
  | EventData.esopPoolExtension _ => []
  | EventData.esopGrant employeeId _ _ _ _ _ vsid _ _ => employeeId :: vsid.toList
  | EventData.optionExercise employeeId _ => [employeeId]

/-- The identifier strings of one event: its own id plus its payload's ids. -/
def eventIds (e : EventBase) : List String := e.id :: eventDataIds e.data

/-- A renaming is admissible for an event list when it is injective, fixes
the pool sentinel, and fixes every identifier the events mention. -/
def admissibleRenaming (ρ : String → String) (events : List EventBase) : Prop :=
  Function.Injective ρ ∧ ρ ESOP_POOL_HOLDER_ID = ESOP_POOL_HOLDER_ID ∧
    ∀ e ∈ events, ∀ s ∈ eventIds e, ρ s = s

-- =============================================================================
-- Concrete waterfall scenario states (used in the exit-waterfall analysis)
-- =============================================================================

/-- A $1 common class. -/
def c2Common : ShareClass :=
  { id := "cc", name := "Common", type := ShareClassType.common,
    seniorityRank := 0, liquidationPreferenceMultiple := 1,
    participation := ParticipationType.non_participating,
    isConvertibleToCommon := true, pricePerShare := some 1 }

/-- A participating 1x preferred class at $1 with a participation cap set. -/
def c2Pref : ShareClass :=
  { id := "pp", name := "Series A", type := ShareClassType.preferred,
    seniorityRank := 1, liquidationPreferenceMultiple := 1,
    participation := ParticipationType.participating,
    participationCapMultiple := some 3,
    isConvertibleToCommon := true, pricePerShare := some 1 }

/-- Founder A's 5,000,000 common shares. -/
def c2HA : SecurityHolding :=
  { id := "ha", holderId := "A", shareClassId := "cc",
    quantity := 5000000, sourceEventId := "e0", isOption := false }

/-- Investor B's 1,000,000 participating preferred shares ($1,000,000 in). -/
def c2HB : SecurityHolding :=
  { id := "hb", holderId := "B", shareClassId := "pp",
    quantity := 1000000, sourceEventId := "e1", isOption := false,
    investmentAmount := some 1000000 }

def c2PA : Person := { id := "A", name := "Alice", type := PersonType.founder }

def c2PB : Person := { id := "B", name := "Bob", type := PersonType.investor }

/-- Scenario for the participating-preferred analysis: 5,000,000 common
(founder A) and 1,000,000 participating preferred (investor B). -/
def c2State : CapTableState :=
  { companyId := "c", shareClasses := [c2Common, c2Pref],
    holdings := [c2HA, c2HB], people := [c2PA, c2PB] }

/-- A non-participating 1x preferred class at $1. -/
def c6Pref : ShareClass :=
  { id := "pp", name := "Series A", type := ShareClassType.preferred,
    seniorityRank := 1, liquidationPreferenceMultiple := 1,
    participation := ParticipationType.non_participating,
    isConvertibleToCommon := true, pricePerShare := some 1 }

/-- Founder A's 8,000,000 common shares. -/
def c6HA : SecurityHolding :=
  { id := "ha", holderId := "A", shareClassId := "cc",
    quantity := 8000000, sourceEventId := "e0", isOption := false }

/-- Investor B's 2,000,000 non-participating preferred ($2,000,000 in). -/
def c6HB : SecurityHolding :=
  { id := "hb", holderId := "B", shareClassId := "pp",
    quantity := 2000000, sourceEventId := "e1", isOption := false,
    investmentAmount := some 2000000 }

/-- The spec's Scenario E: 2,000,000 of 10,000,000 fully diluted shares are
1x non-participating preferred at $1.00. -/
def c6State : CapTableState :=
  { companyId := "c", shareClasses := [c2Common, c6Pref],
    holdings := [c6HA, c6HB], people := [c2PA, c2PB] }


-- Concrete replay-determinism scenario: one bare incorporation event and two
-- distinct identifier streams.

/-- A minimal incorporation event (no founders, no pool). -/
def c4Event : EventBase :=
  { id := "ev1", companyId := "c", date := 0, label := "Incorporation",
    data := EventData.incorporation 0 none FounderInputMode.shares [] none }

/-- One identifier stream: A0, A1, A2, ... -/
def c4StreamA : Gen := fun n => String.append "A" (toString n)

/-- Another identifier stream: B0, B1, B2, ... -/
def c4StreamB : Gen := fun n => String.append "B" (toString n)
-- =============================================================================
-- Theorems. First: association-list facts for the allocator
-- =============================================================================

theorem mapGet_nil (k : String) : mapGet [] k = 0 := rfl

theorem mapGet_cons_self (k : String) (v : ℤ) (t : List (String × ℤ)) :
    mapGet ((k, v) :: t) k = v := by
  simp [mapGet]

theorem mapGet_cons_ne (a : String × ℤ) (t : List (String × ℤ)) (k : String)
    (h : a.1 ≠ k) : mapGet (a :: t) k = mapGet t k := by
  simp [mapGet, List.find?_cons, h]

theorem mapGet_nonneg (m : List (String × ℤ)) (k : String)
    (hm : ∀ p ∈ m, 0 ≤ p.2) : 0 ≤ mapGet m k := by
  unfold mapGet
  cases hfind : m.find? (fun p => p.1 == k) with
  | none => simp
  | some p =>
    have := List.mem_of_find?_eq_some hfind
    simpa using hm p this

theorem mapSet_any_false (m : List (String × ℤ)) (k : String) (v : ℤ)
    (h : m.any (fun p => p.1 == k) = false) : mapSet m k v = m ++ [(k, v)] := by
  simp [mapSet, h]

theorem keys_mapSet_of_mem (m : List (String × ℤ)) (k : String) (v : ℤ)
    (hk : k ∈ m.map Prod.fst) :
    (mapSet m k v).map Prod.fst = m.map Prod.fst := by
  have hany : m.any (fun p => p.1 == k) = true := by
    simp only [List.any_eq_true]
    obtain ⟨p, hp, hpk⟩ := List.mem_map.mp hk
    exact ⟨p, hp, by simp [hpk]⟩
  simp only [mapSet, hany, if_pos, List.map_map]
  refine List.map_congr_left ?_
  intro p _
  by_cases hpk : p.1 = k
  · simp [hpk]
  · simp [hpk]

theorem sum_snd_mapSet_incr : ∀ (m : List (String × ℤ)) (k : String),
    (m.map Prod.fst).Nodup → k ∈ m.map Prod.fst →
    ((mapSet m k (mapGet m k + 1)).map Prod.snd).sum = (m.map Prod.snd).sum + 1 := by
  intro m
  induction m with
  | nil => intro k _ hk; simp at hk
  | cons a t ih =>
    intro k hnd hk
    have hnd' := hnd
    simp only [List.map_cons, List.nodup_cons] at hnd'
    obtain ⟨ha1, hndt⟩ := hnd'
    simp only [List.map_cons, List.mem_cons] at hk
    rcases hk with hk | hk
    · -- k is the head key
      subst hk
      have hany : (a :: t).any (fun p => p.1 == a.1) = true := by simp
      have hget : mapGet (a :: t) a.1 = a.2 := by
        cases a; exact mapGet_cons_self _ _ _
      have htmap : t.map (fun p => if p.1 == a.1 then (a.1, mapGet (a :: t) a.1 + 1) else p) = t := by
        refine List.map_congr_left ?_ |>.trans (List.map_id t)
        intro p hp
        have : p.1 ≠ a.1 := fun h => ha1 (h ▸ List.mem_map_of_mem Prod.fst hp)
        simp [this]
      simp only [mapSet, hany, if_pos, List.map_cons]
      have hhead : (if a.1 == a.1 then (a.1, mapGet (a :: t) a.1 + 1) else a)
          = (a.1, a.2 + 1) := by simp [hget]
      rw [hhead, htmap]
      simp [add_comm, add_assoc, add_left_comm]
    · -- k is in the tail
      have hka : a.1 ≠ k := fun h => ha1 (h ▸ hk)
      have hanyt : t.any (fun p => p.1 == k) = true := by
        simp only [List.any_eq_true]
        obtain ⟨p, hp, hpk⟩ := List.mem_map.mp hk
        exact ⟨p, hp, by simp [hpk]⟩
      have hany : (a :: t).any (fun p => p.1 == k) = true := by
        simp [List.any_cons, hanyt]
      have hget : mapGet (a :: t) k = mapGet t k := mapGet_cons_ne a t k hka
      have hcons : mapSet (a :: t) k (mapGet (a :: t) k + 1)
          = a :: mapSet t k (mapGet t k + 1) := by
        simp only [mapSet, hany, hanyt, if_pos, List.map_cons, hget]
        congr 1
        simp [hka]
      rw [hcons]
      simp only [List.map_cons, List.sum_cons]
      rw [ih k hndt hk]
      ring

theorem mapSet_nonneg (m : List (String × ℤ)) (k : String) (v : ℤ)
    (hm : ∀ p ∈ m, 0 ≤ p.2) (hv : 0 ≤ v) : ∀ p ∈ mapSet m k v, 0 ≤ p.2 := by
  intro p hp
  unfold mapSet at hp
  split at hp
  · obtain ⟨q, hq, hqe⟩ := List.mem_map.mp hp
    by_cases hqk : q.1 = k
    · simp only [hqk, beq_self_eq_true, if_true] at hqe
      rw [← hqe]
      exact hv
    · simp only [beq_iff_eq, hqk, if_false] at hqe
      exact hqe ▸ hm q hq
  · rcases List.mem_append.mp hp with h | h
    · exact hm p h
    · simp only [List.mem_singleton] at h
      rw [h]
      exact hv

theorem award_foldl_props : ∀ (l : List AllocEntry) (m : List (String × ℤ)),
    (m.map Prod.fst).Nodup → (∀ r ∈ l, r.id ∈ m.map Prod.fst) →
    (((l.foldl (fun m r => mapSet m r.id (mapGet m r.id + 1)) m).map Prod.snd).sum
        = (m.map Prod.snd).sum + l.length) ∧
    ((l.foldl (fun m r => mapSet m r.id (mapGet m r.id + 1)) m).map Prod.fst
        = m.map Prod.fst) := by
  intro l
  induction l with
  | nil => intro m _ _; simp
  | cons r t ih =>
    intro m hnd hmem
    have hr : r.id ∈ m.map Prod.fst := hmem r (List.mem_cons_self r t)
    have hkeys : (mapSet m r.id (mapGet m r.id + 1)).map Prod.fst = m.map Prod.fst :=
      keys_mapSet_of_mem m r.id _ hr
    have hsum : ((mapSet m r.id (mapGet m r.id + 1)).map Prod.snd).sum
        = (m.map Prod.snd).sum + 1 := sum_snd_mapSet_incr m r.id hnd hr
    have hih := ih (mapSet m r.id (mapGet m r.id + 1))
      (hkeys ▸ hnd) (fun s hs => hkeys ▸ hmem s (List.mem_cons_of_mem r hs))
    constructor
    · simp only [List.foldl_cons]
      rw [hih.1, hsum]
      simp only [List.length_cons]
      push_cast
      ring
    · simp only [List.foldl_cons]
      rw [hih.2, hkeys]

theorem award_foldl_nonneg : ∀ (l : List AllocEntry) (m : List (String × ℤ)),
    (∀ p ∈ m, 0 ≤ p.2) →
    ∀ p ∈ l.foldl (fun m r => mapSet m r.id (mapGet m r.id + 1)) m, 0 ≤ p.2 := by
  intro l
  induction l with
  | nil => intro m hm; simpa using hm
  | cons r t ih =>
    intro m hm
    simp only [List.foldl_cons]
    refine ih _ ?_
    refine mapSet_nonneg _ _ _ hm ?_
    have := mapGet_nonneg m r.id hm
    omega

theorem build_foldl_eq : ∀ (l : List AllocEntry) (m : List (String × ℤ)),
    (∀ r ∈ l, r.id ∉ m.map Prod.fst) → (l.map AllocEntry.id).Nodup →
    l.foldl (fun m r => mapSet m r.id r.floor) m
      = m ++ l.map (fun r => (r.id, r.floor)) := by
  intro l
  induction l with
  | nil => intro m _ _; simp
  | cons r t ih =>
    intro m hfresh hnd
    have hany : m.any (fun p => p.1 == r.id) = false := by
      rw [List.any_eq_false]
      intro p hp
      simp only [beq_iff_eq]
      intro hpe
      exact hfresh r (List.mem_cons_self r t) (hpe ▸ List.mem_map_of_mem Prod.fst hp)
    simp only [List.map_cons, List.nodup_cons] at hnd
    have hstep : mapSet m r.id r.floor = m ++ [(r.id, r.floor)] :=
      mapSet_any_false m r.id r.floor hany
    simp only [List.foldl_cons, hstep]
    rw [ih (m ++ [(r.id, r.floor)]) ?_ hnd.2]
    · simp
    · intro s hs
      simp only [List.map_append, List.mem_append, List.map_cons]
      rintro (h | h)
      · exact hfresh s (List.mem_cons_of_mem r hs) h
      · simp at h
        exact hnd.1 (h ▸ List.mem_map_of_mem AllocEntry.id hs)

theorem map_mapGet_eq_self : ∀ (m : List (String × ℤ)),
    (m.map Prod.fst).Nodup →
    (m.map Prod.fst).map (fun k => (k, mapGet m k)) = m := by
  intro m
  induction m with
  | nil => intro _; rfl
  | cons a t ih =>
    intro hnd
    simp only [List.map_cons, List.nodup_cons] at hnd
    have hhead : (a.1, mapGet (a :: t) a.1) = a := by
      cases a with
      | mk a1 a2 => simp [mapGet_cons_self]
    have htail : (t.map Prod.fst).map (fun k => (k, mapGet (a :: t) k))
        = (t.map Prod.fst).map (fun k => (k, mapGet t k)) := by
      refine List.map_congr_left ?_
      intro x hx
      have hax : a.1 ≠ x := fun h => hnd.1 (h ▸ hx)
      rw [mapGet_cons_ne a t x hax]
    simp only [List.map_cons]
    rw [hhead, htail, ih hnd.2]

theorem intCast_list_sum : ∀ (l : List ℤ), ((l.sum : ℤ) : ℚ) = (l.map (fun z => (z : ℚ))).sum := by
  intro l
  induction l with
  | nil => simp
  | cons a t ih => simp [ih]

theorem list_sum_map_add (l : List α) (f g : α → ℚ) :
    (l.map (fun x => f x + g x)).sum = (l.map f).sum + (l.map g).sum := by
  induction l with
  | nil => simp
  | cons a t ih =>
    simp only [List.map_cons, List.sum_cons, ih]
    ring

theorem rem_sum_lt_length (L : List AllocEntry) (hne : L ≠ [])
    (h1 : ∀ r ∈ L, r.remainder < 1) :
    (L.map (fun r => r.remainder)).sum < (L.length : ℚ) := by
  induction L with
  | nil => cases hne rfl
  | cons a t ih =>
    cases t with
    | nil => simpa using h1 a (by simp)
    | cons b u =>
      have hlt := ih (by simp) (fun r hr => h1 r (List.mem_cons_of_mem a hr))
      have ha := h1 a (List.mem_cons_self _ _)
      simp only [List.map_cons, List.sum_cons, List.length_cons] at *
      push_cast at *
      linarith

theorem allocEntries_ids (t : ℤ) (rs : List (String × ℚ)) :
    (allocEntries t rs).map AllocEntry.id = rs.map Prod.fst := by
  simp [allocEntries, List.map_map]

theorem allocEntries_mem (t : ℤ) (rs : List (String × ℚ)) :
    ∀ r ∈ allocEntries t rs,
      r.floor = ⌊r.exact⌋ ∧ r.remainder = r.exact - ⌊r.exact⌋ ∧
      ∃ p ∈ rs, r.exact = (t : ℚ) * p.2 := by
  intro r hr
  obtain ⟨x, hx, rfl⟩ := List.mem_map.mp hr
  exact ⟨rfl, rfl, x, hx, rfl⟩

theorem list_sum_map_mul_left (t : ℚ) (rs : List (String × ℚ)) :
    (rs.map (fun r => t * r.2)).sum = t * (rs.map Prod.snd).sum := by
  induction rs with
  | nil => simp
  | cons a u ih =>
    simp only [List.map_cons, List.sum_cons, ih]
    ring

theorem allocEntries_exact_sum (t : ℤ) (rs : List (String × ℚ)) :
    ((allocEntries t rs).map (fun r => r.exact)).sum
      = (t : ℚ) * (rs.map Prod.snd).sum := by
  have h1 : (allocEntries t rs).map (fun r => r.exact)
      = rs.map (fun r => (t : ℚ) * r.2) := by
    simp [allocEntries, List.map_map]
  rw [h1, list_sum_map_mul_left]

theorem allocResultMap_props (totalShares : ℤ) (recipients : List (String × ℚ))
    (hnd : (recipients.map Prod.fst).Nodup) :
    ((allocResultMap totalShares recipients).map Prod.fst = recipients.map Prod.fst) ∧
    (((allocResultMap totalShares recipients).map Prod.snd).sum
      = ((allocEntries totalShares recipients).map (fun r => r.floor)).sum
        + (min (allocRemaining totalShares recipients).toNat
            (allocEntries totalShares recipients).length : ℕ)) ∧
    ((∀ r ∈ allocEntries totalShares recipients, 0 ≤ r.floor) →
      ∀ p ∈ allocResultMap totalShares recipients, 0 ≤ p.2) := by
  classical
  have hids : (allocEntries totalShares recipients).map AllocEntry.id
      = recipients.map Prod.fst := allocEntries_ids _ _
  have hndL : ((allocEntries totalShares recipients).map AllocEntry.id).Nodup := by
    rw [hids]; exact hnd
  have hres0 : (allocEntries totalShares recipients).foldl
        (fun m r => mapSet m r.id r.floor) []
      = (allocEntries totalShares recipients).map (fun r => (r.id, r.floor)) := by
    have h := build_foldl_eq (allocEntries totalShares recipients) [] (by simp) hndL
    simpa using h
  have hkeys0 : ((allocEntries totalShares recipients).map
        (fun r => (r.id, r.floor))).map Prod.fst
      = recipients.map Prod.fst := by
    rw [List.map_map]
    exact hids
  have hperm := List.perm_insertionSort
    (fun a b => b.remainder ≤ a.remainder) (allocEntries totalShares recipients)
  have htake_mem : ∀ x ∈ (List.insertionSort (fun a b => b.remainder ≤ a.remainder)
        (allocEntries totalShares recipients)).take
        (allocRemaining totalShares recipients).toNat,
      x.id ∈ ((allocEntries totalShares recipients).map
        (fun r => (r.id, r.floor))).map Prod.fst := by
    intro x hx
    have hx2 : x ∈ allocEntries totalShares recipients :=
      hperm.mem_iff.mp (List.mem_of_mem_take hx)
    rw [hkeys0, ← hids]
    exact List.mem_map_of_mem AllocEntry.id hx2
  have hnd0 : (((allocEntries totalShares recipients).map
        (fun r => (r.id, r.floor))).map Prod.fst).Nodup := by
    rw [hkeys0]; exact hnd
  obtain ⟨haw_sum, haw_keys⟩ := award_foldl_props
    ((List.insertionSort (fun a b => b.remainder ≤ a.remainder)
        (allocEntries totalShares recipients)).take
        (allocRemaining totalShares recipients).toNat)
    ((allocEntries totalShares recipients).map (fun r => (r.id, r.floor)))
    hnd0 htake_mem
  have hRM : allocResultMap totalShares recipients
      = ((List.insertionSort (fun a b => b.remainder ≤ a.remainder)
          (allocEntries totalShares recipients)).take
          (allocRemaining totalShares recipients).toNat).foldl
        (fun m r => mapSet m r.id (mapGet m r.id + 1))
        ((allocEntries totalShares recipients).map (fun r => (r.id, r.floor))) := by
    simp only [allocResultMap]
    rw [hres0]
  have hsum0 : (((allocEntries totalShares recipients).map
        (fun r => (r.id, r.floor))).map Prod.snd).sum
      = ((allocEntries totalShares recipients).map (fun r => r.floor)).sum := by
    rw [List.map_map]
    rfl
  have hlen : ((List.insertionSort (fun a b => b.remainder ≤ a.remainder)
        (allocEntries totalShares recipients)).take
        (allocRemaining totalShares recipients).toNat).length
      = min (allocRemaining totalShares recipients).toNat
          (allocEntries totalShares recipients).length := by
    rw [List.length_take, hperm.length_eq]
  refine ⟨?_, ?_, ?_⟩
  · rw [hRM, haw_keys, hkeys0]
  · rw [hRM, haw_sum, hsum0, hlen]
  · intro hfl p hp
    rw [hRM] at hp
    refine award_foldl_nonneg _ _ ?_ p hp
    intro q hq
    obtain ⟨r, hr, rfl⟩ := List.mem_map.mp hq
    exact hfl r hr

/-- C1 counterexample input: a single recipient with proportion `1/2`.
Since the allocator never divides by the proportions' own sum, the floored
baseline is `5` and only one bonus unit can be handed out, so the shares sum
to `6`, not to the requested total `10`. -/
theorem allocator_counterexample_half :
    distributeSharesByLargestRemainder 10 [("a", 1/2)] = [("a", 6)] ∧
    ((distributeSharesByLargestRemainder 10 [("a", 1/2)]).map Prod.snd).sum = 6 ∧
    (6 : ℤ) ≠ 10 := by
  refine ⟨?_, ?_, by decide⟩ <;>
    norm_num [distributeSharesByLargestRemainder, allocResultMap, allocRemaining,
      allocEntries, mapGet, mapSet, List.insertionSort, List.orderedInsert] <;>
    simp

/-- C1 (amended): for a non-negative integer total and recipients with
pairwise-distinct ids and non-negative proportions that sum exactly to 1,
`distributeSharesByLargestRemainder` returns one integer share count per
recipient whose sum equals the total exactly, with no negative share count.
(As the source never divides by the proportions' own sum, the conservation
property requires the proportions to sum to 1; see the counterexample.) -/
theorem allocator_sum_eq_total (totalShares : ℤ) (recipients : List (String × ℚ))
    (htot : 0 ≤ totalShares) (hprop : ∀ r ∈ recipients, 0 ≤ r.2)
    (hsum1 : (recipients.map Prod.snd).sum = 1)
    (hnd : (recipients.map Prod.fst).Nodup) :
    ((distributeSharesByLargestRemainder totalShares recipients).map Prod.snd).sum
        = totalShares ∧
    ∀ p ∈ distributeSharesByLargestRemainder totalShares recipients, 0 ≤ p.2 := by
  classical
  obtain ⟨hkeys, hsum, hnn⟩ := allocResultMap_props totalShares recipients hnd
  have hout : distributeSharesByLargestRemainder totalShares recipients
      = allocResultMap totalShares recipients := by
    unfold distributeSharesByLargestRemainder
    have h1 : recipients.map
          (fun r => (r.1, mapGet (allocResultMap totalShares recipients) r.1))
        = (recipients.map Prod.fst).map
          (fun kk => (kk, mapGet (allocResultMap totalShares recipients) kk)) := by
      rw [List.map_map]
      rfl
    rw [h1, ← hkeys, map_mapGet_eq_self _ (by rw [hkeys]; exact hnd)]
  -- entry-level facts
  have hmem := allocEntries_mem totalShares recipients
  have hfl_nonneg : ∀ r ∈ allocEntries totalShares recipients, 0 ≤ r.floor := by
    intro r hr
    obtain ⟨hfl, _, p, hp, hex⟩ := hmem r hr
    have hnn : (0 : ℚ) ≤ r.exact := by
      rw [hex]
      exact mul_nonneg (by exact_mod_cast htot) (hprop p hp)
    rw [hfl]
    exact Int.le_floor.mpr (by simpa using hnn)
  have hrem_nonneg : ∀ r ∈ allocEntries totalShares recipients, 0 ≤ r.remainder := by
    intro r hr
    obtain ⟨_, hrem, _⟩ := hmem r hr
    rw [hrem]
    have := Int.floor_le r.exact
    linarith
  have hrem_lt : ∀ r ∈ allocEntries totalShares recipients, r.remainder < 1 := by
    intro r hr
    obtain ⟨_, hrem, _⟩ := hmem r hr
    rw [hrem]
    have := Int.lt_floor_add_one r.exact
    linarith
  have hexact_fl : ∀ r ∈ allocEntries totalShares recipients,
      r.exact = (r.floor : ℚ) + r.remainder := by
    intro r hr
    obtain ⟨hfl, hrem, _⟩ := hmem r hr
    rw [hfl, hrem]
    ring
  -- sum bookkeeping
  have hexact_sum : ((allocEntries totalShares recipients).map (fun r => r.exact)).sum
      = (totalShares : ℚ) := by
    rw [allocEntries_exact_sum, hsum1, mul_one]
  have hsplit : ((allocEntries totalShares recipients).map (fun r => r.exact)).sum
      = ((allocEntries totalShares recipients).map (fun r => (r.floor : ℚ))).sum
        + ((allocEntries totalShares recipients).map (fun r => r.remainder)).sum := by
    rw [← list_sum_map_add]
    refine congrArg List.sum ?_
    refine List.map_congr_left ?_
    intro r hr
    exact hexact_fl r hr
  have hremQ : ((allocRemaining totalShares recipients : ℤ) : ℚ)
      = ((allocEntries totalShares recipients).map (fun r => r.remainder)).sum := by
    unfold allocRemaining
    push_cast
    rw [List.map_map]
    have hfuse : (allocEntries totalShares recipients).map (Int.cast ∘ fun r => r.floor)
        = (allocEntries totalShares recipients).map (fun r => (r.floor : ℚ)) := rfl
    rw [hfuse]
    linarith [hexact_sum, hsplit]
  have hrs_ne : recipients ≠ [] := by
    intro h
    rw [h] at hsum1
    simp at hsum1
  have hL_ne : allocEntries totalShares recipients ≠ [] := by
    intro h
    have := allocEntries_ids totalShares recipients
    rw [h] at this
    cases recipients with
    | nil => exact hrs_ne rfl
    | cons a t => simp at this
  have hrem_sum_nonneg : 0 ≤ ((allocEntries totalShares recipients).map
      (fun r => r.remainder)).sum := by
    have h0 : ((allocEntries totalShares recipients).map (fun _ => (0:ℚ))).sum
        ≤ ((allocEntries totalShares recipients).map (fun r => r.remainder)).sum :=
      List.sum_le_sum (fun r hr => hrem_nonneg r hr)
    simpa using h0
  have hrem_sum_lt : ((allocEntries totalShares recipients).map
      (fun r => r.remainder)).sum < ((allocEntries totalShares recipients).length : ℚ) :=
    rem_sum_lt_length _ hL_ne hrem_lt
  have hR_nonneg : 0 ≤ allocRemaining totalShares recipients := by
    have := hremQ ▸ hrem_sum_nonneg
    exact_mod_cast this
  have hR_lt : allocRemaining totalShares recipients
      < ((allocEntries totalShares recipients).length : ℤ) := by
    have := hremQ ▸ hrem_sum_lt
    exact_mod_cast this
  have hmin : min (allocRemaining totalShares recipients).toNat
      (allocEntries totalShares recipients).length
      = (allocRemaining totalShares recipients).toNat := by
    refine Nat.min_eq_left ?_
    have h1 : ((allocRemaining totalShares recipients).toNat : ℤ)
        ≤ ((allocEntries totalShares recipients).length : ℤ) := by
      rw [Int.toNat_of_nonneg hR_nonneg]
      omega
    exact_mod_cast h1
  constructor
  · rw [hout, hsum, hmin]
    have hcast : ((allocRemaining totalShares recipients).toNat : ℤ)
        = allocRemaining totalShares recipients := Int.toNat_of_nonneg hR_nonneg
    rw [hcast]
    unfold allocRemaining
    ring
  · rw [hout]
    exact hnn hfl_nonneg

/-- C1 witness: two recipients at 60%/40% of 10 shares receive 6 and 4,
summing to the total with no negative allocation. -/
theorem allocator_sum_eq_total_witness :
    ((distributeSharesByLargestRemainder 10 [("a", 3/5), ("b", 2/5)]).map Prod.snd).sum
        = 10 ∧
    ∀ p ∈ distributeSharesByLargestRemainder 10 [("a", 3/5), ("b", 2/5)], 0 ≤ p.2 :=
  allocator_sum_eq_total 10 [("a", 3/5), ("b", 2/5)] (by norm_num)
    (by intro r hr; simp at hr; rcases hr with h | h <;> rw [h] <;> norm_num)
    (by norm_num) (by simp)

-- =============================================================================
-- C5: SAFE conversion pricing
-- =============================================================================

/-- C5: the effective SAFE conversion price equals the minimum of the round
price, the cap-implied price `cap / preRoundFD` (when a cap is present) and
the discount price `roundPrice × (1 − discount%/100)` (when a discount is
present); with neither present it equals the round price exactly. In Scenario
B ($500,000 principal, $5,000,000 cap, 20% discount, $1.00 round price,
10,000,000 pre-round fully diluted shares) the price is $0.50 via the cap and
the SAFE receives 1,000,000 shares. -/
theorem safe_conversion_effective_price (safe : SAFE) (roundPrice preRoundFD : ℚ)
    (hrp : 0 ≤ roundPrice) :
    ((calculateSAFEConversion safe roundPrice preRoundFD).effectivePrice
      = min roundPrice (min
          ((safe.valuationCap.map (fun cap => cap / preRoundFD)).getD roundPrice)
          ((safe.discountPercent.map (fun d => roundPrice * (1 - d / 100))).getD roundPrice))) ∧
    (safe.valuationCap = none → safe.discountPercent = none →
      (calculateSAFEConversion safe roundPrice preRoundFD).effectivePrice = roundPrice) ∧
    (calculateSAFEConversion
        { id := "safe-b", investorId := "inv-b", principalAmount := 500000,
          valuationType := ValuationType.post_money, valuationCap := some 5000000,
          discountPercent := some 20, issueDate := 0 } 1 10000000
      = { shares := 1000000, effectivePrice := 1/2, method := "cap" }) := by
  refine ⟨?_, ?_, ?_⟩
  · unfold calculateSAFEConversion
    rcases hcap : safe.valuationCap with _ | cap <;>
      rcases hd : safe.discountPercent with _ | d <;>
      simp only [Option.map_none', Option.map_some', Option.getD_none, Option.getD_some]
    · simp
    · by_cases hd0 : 0 < d
      · have hdp : roundPrice * (1 - d / 100) ≤ roundPrice := by nlinarith
        simp only [hd0, if_true]
        split_ifs with h <;> simp only [min_def] <;> split_ifs <;> first | rfl | linarith
      · have hdge : roundPrice ≤ roundPrice * (1 - d / 100) := by nlinarith [not_lt.mp hd0]
        simp only [hd0, if_false]
        simp only [min_def]
        split_ifs <;> first | rfl | linarith
    · split_ifs with h <;> simp only [min_def] <;> split_ifs <;> first | rfl | linarith
    · by_cases hd0 : 0 < d
      · have hdp : roundPrice * (1 - d / 100) ≤ roundPrice := by nlinarith
        simp only [hd0, if_true]
        split_ifs with h <;> simp only [min_def] <;> split_ifs <;> first | rfl | linarith
      · have hdge : roundPrice ≤ roundPrice * (1 - d / 100) := by nlinarith [not_lt.mp hd0]
        simp only [hd0, if_false]
        split_ifs with h <;> simp only [min_def] <;> split_ifs <;> first | rfl | linarith
  · intro hc hd
    unfold calculateSAFEConversion
    simp [hc, hd]
  · norm_num [calculateSAFEConversion, roundShares, roundHalfUp]

/-- C5 witness: Scenario B instantiates the theorem — the effective price for
a $5,000,000-cap, 20%-discount SAFE at round price $1.00 over 10,000,000
pre-round shares is the minimum of the three candidate prices. -/
theorem safe_conversion_effective_price_witness :
    (calculateSAFEConversion
        { id := "safe-b", investorId := "inv-b", principalAmount := 500000,
          valuationType := ValuationType.post_money, valuationCap := some 5000000,
          discountPercent := some 20, issueDate := 0 } 1 10000000
      = { shares := 1000000, effectivePrice := 1/2, method := "cap" }) :=
  (safe_conversion_effective_price
    { id := "safe-b", investorId := "inv-b", principalAmount := 500000,
      valuationType := ValuationType.post_money, valuationCap := some 5000000,
      discountPercent := some 20, issueDate := 0 } 1 10000000 (by norm_num)).2.2

-- =============================================================================
-- C9 and C10: vesting
-- =============================================================================

/-- Closed form of `calculateVestedOptions` once the schedule resolves and a
vesting start date is present. -/
theorem calculateVestedOptions_closed (holding : SecurityHolding) (state : CapTableState)
    (sid : String) (schedule : VestingSchedule) (s : ℤ)
    (hsid : holding.vestingScheduleId = some sid)
    (hfind : state.vestingSchedules.find? (fun v => v.id == sid) = some schedule)
    (hstart : holding.vestingStartDate = some s) (d : ℤ) :
    calculateVestedOptions holding d state =
      if ⌊((d - s : ℤ) : ℚ) / MONTH_MS⌋ < schedule.cliffMonths then 0
      else
        min holding.quantity
          (⌊(holding.quantity : ℚ) * jsOrQ schedule.initialCliffPercent 25 / 100⌋ +
            min (holding.quantity - ⌊(holding.quantity : ℚ) * jsOrQ schedule.initialCliffPercent 25 / 100⌋)
              ⌊((holding.quantity - ⌊(holding.quantity : ℚ) * jsOrQ schedule.initialCliffPercent 25 / 100⌋ : ℤ) : ℚ)
                  * ((⌊((d - s : ℤ) : ℚ) / MONTH_MS⌋ - schedule.cliffMonths : ℤ) : ℚ)
                  / ((schedule.totalMonths - schedule.cliffMonths : ℤ) : ℚ)⌋) := by
  unfold calculateVestedOptions
  simp only [hsid, hfind, hstart, Option.orElse, Option.getD_some]

theorem vested_closed_nonneg (q cv rem : ℤ) (x : ℤ)
    (hq : 0 ≤ q) (hcv : 0 ≤ cv) (hrem : 0 ≤ rem) (hx : 0 ≤ x) :
    0 ≤ min q (cv + min rem x) := by
  refine le_min hq ?_
  have : 0 ≤ min rem x := le_min hrem hx
  omega

theorem months_elapsed_mono (s d1 d2 : ℤ) (hd : d1 ≤ d2) :
    ⌊((d1 - s : ℤ) : ℚ) / MONTH_MS⌋ ≤ ⌊((d2 - s : ℤ) : ℚ) / MONTH_MS⌋ := by
  refine Int.floor_le_floor ?_
  have hM : (0 : ℚ) < MONTH_MS := by norm_num [MONTH_MS]
  gcongr

theorem months_elapsed_lt_iff (s d c : ℤ) :
    ⌊((d - s : ℤ) : ℚ) / MONTH_MS⌋ < c ↔ d < s + c * 2630016000 := by
  have hM : (0 : ℚ) < MONTH_MS := by norm_num [MONTH_MS]
  rw [Int.floor_lt, div_lt_iff hM]
  constructor
  · intro h
    have : ((d - s : ℤ) : ℚ) < ((c * 2630016000 : ℤ) : ℚ) := by
      push_cast
      simpa [MONTH_MS] using h
    have h2 : d - s < c * 2630016000 := by exact_mod_cast this
    omega
  · intro h
    have h2 : d - s < c * 2630016000 := by omega
    have : ((d - s : ℤ) : ℚ) < ((c * 2630016000 : ℤ) : ℚ) := by exact_mod_cast h2
    push_cast at this
    simpa [MONTH_MS] using this

theorem le_months_elapsed_iff (s d c : ℤ) :
    c ≤ ⌊((d - s : ℤ) : ℚ) / MONTH_MS⌋ ↔ s + c * 2630016000 ≤ d := by
  have hM : (0 : ℚ) < MONTH_MS := by norm_num [MONTH_MS]
  rw [Int.le_floor, le_div_iff hM]
  constructor
  · intro h
    have : ((c * 2630016000 : ℤ) : ℚ) ≤ ((d - s : ℤ) : ℚ) := by
      push_cast
      simpa [MONTH_MS] using h
    have h2 : c * 2630016000 ≤ d - s := by exact_mod_cast this
    omega
  · intro h
    have h2 : c * 2630016000 ≤ d - s := by omega
    have : ((c * 2630016000 : ℤ) : ℚ) ≤ ((d - s : ℤ) : ℚ) := by exact_mod_cast h2
    push_cast at this
    simpa [MONTH_MS] using this

/-- C9: for a holding with a resolvable vesting schedule (well-formed: cliff
shorter than total, cliff percent in [0,100], non-negative quantity), the
vested quantity is monotonically non-decreasing in the evaluation date, is 0
strictly before the cliff date `start + cliffMonths` months, and equals the
full quantity at and after `start + totalMonths` months (months being the
source's 30.44-day units). -/
theorem vesting_monotone_cliff_total (holding : SecurityHolding) (state : CapTableState)
    (sid : String) (schedule : VestingSchedule) (s : ℤ)
    (hsid : holding.vestingScheduleId = some sid)
    (hfind : state.vestingSchedules.find? (fun v => v.id == sid) = some schedule)
    (hstart : holding.vestingStartDate = some s)
    (hq : 0 ≤ holding.quantity)
    (hicp0 : 0 ≤ schedule.initialCliffPercent)
    (hicp100 : schedule.initialCliffPercent ≤ 100)
    (hct : schedule.cliffMonths < schedule.totalMonths)
    (d1 d2 : ℤ) (hd : d1 ≤ d2) :
    calculateVestedOptions holding d1 state ≤ calculateVestedOptions holding d2 state ∧
    (d1 < s + schedule.cliffMonths * 2630016000 →
      calculateVestedOptions holding d1 state = 0) ∧
    (s + schedule.totalMonths * 2630016000 ≤ d1 →
      calculateVestedOptions holding d1 state = holding.quantity) := by
  have hC := calculateVestedOptions_closed holding state sid schedule s hsid hfind hstart
  have hcp0 : 0 ≤ jsOrQ schedule.initialCliffPercent 25 := by
    unfold jsOrQ
    split
    · norm_num
    · exact hicp0
  have hcp100 : jsOrQ schedule.initialCliffPercent 25 ≤ 100 := by
    unfold jsOrQ
    split
    · norm_num
    · exact hicp100
  have hqQ : (0 : ℚ) ≤ (holding.quantity : ℚ) := by exact_mod_cast hq
  have hcv0 : 0 ≤ ⌊(holding.quantity : ℚ) * jsOrQ schedule.initialCliffPercent 25 / 100⌋ := by
    refine Int.le_floor.mpr ?_
    push_cast
    have : (0:ℚ) ≤ (holding.quantity : ℚ) * jsOrQ schedule.initialCliffPercent 25 :=
      mul_nonneg hqQ hcp0
    linarith
  have hcvq : ⌊(holding.quantity : ℚ) * jsOrQ schedule.initialCliffPercent 25 / 100⌋
      ≤ holding.quantity := by
    have h1 : (holding.quantity : ℚ) * jsOrQ schedule.initialCliffPercent 25 / 100
        ≤ (holding.quantity : ℚ) := by nlinarith
    calc ⌊(holding.quantity : ℚ) * jsOrQ schedule.initialCliffPercent 25 / 100⌋
        ≤ ⌊(holding.quantity : ℚ)⌋ := Int.floor_le_floor h1
      _ = holding.quantity := Int.floor_intCast holding.quantity
  have hrem0 : 0 ≤ holding.quantity
      - ⌊(holding.quantity : ℚ) * jsOrQ schedule.initialCliffPercent 25 / 100⌋ := by omega
  have hremQ : (0:ℚ) ≤ ((holding.quantity
      - ⌊(holding.quantity : ℚ) * jsOrQ schedule.initialCliffPercent 25 / 100⌋ : ℤ) : ℚ) := by
    exact_mod_cast hrem0
  have hrm0 : 0 < schedule.totalMonths - schedule.cliffMonths := by omega
  have hrmQ : (0:ℚ) < ((schedule.totalMonths - schedule.cliffMonths : ℤ) : ℚ) := by
    exact_mod_cast hrm0
  have hm12 : ⌊((d1 - s : ℤ) : ℚ) / MONTH_MS⌋ ≤ ⌊((d2 - s : ℤ) : ℚ) / MONTH_MS⌋ :=
    months_elapsed_mono s d1 d2 hd
  refine ⟨?_, ?_, ?_⟩
  · rw [hC d1, hC d2]
    by_cases h1 : ⌊((d1 - s : ℤ) : ℚ) / MONTH_MS⌋ < schedule.cliffMonths
    · rw [if_pos h1]
      by_cases h2 : ⌊((d2 - s : ℤ) : ℚ) / MONTH_MS⌋ < schedule.cliffMonths
      · rw [if_pos h2]
      · rw [if_neg h2]
        refine vested_closed_nonneg _ _ _ _ hq hcv0 hrem0 ?_
        refine Int.le_floor.mpr ?_
        have hmac2 : (0:ℚ) ≤ ((⌊((d2 - s : ℤ) : ℚ) / MONTH_MS⌋ - schedule.cliffMonths : ℤ) : ℚ) := by
          have h3 : schedule.cliffMonths ≤ ⌊((d2 - s : ℤ) : ℚ) / MONTH_MS⌋ := not_lt.mp h2
          exact_mod_cast sub_nonneg.mpr h3
        have h4 := div_nonneg (mul_nonneg hremQ hmac2) (le_of_lt hrmQ)
        simpa using h4
    · have h2 : ¬ ⌊((d2 - s : ℤ) : ℚ) / MONTH_MS⌋ < schedule.cliffMonths := by omega
      rw [if_neg h1, if_neg h2]
      refine min_le_min le_rfl (add_le_add_left (min_le_min le_rfl ?_) _)
      refine Int.floor_le_floor ?_
      gcongr
  · intro h
    rw [hC d1, if_pos ((months_elapsed_lt_iff s d1 schedule.cliffMonths).mpr h)]
  · intro h
    have hm : schedule.totalMonths ≤ ⌊((d1 - s : ℤ) : ℚ) / MONTH_MS⌋ :=
      (le_months_elapsed_iff s d1 schedule.totalMonths).mpr h
    have hnotlt : ¬ ⌊((d1 - s : ℤ) : ℚ) / MONTH_MS⌋ < schedule.cliffMonths := by omega
    rw [hC d1, if_neg hnotlt]
    have hfl : holding.quantity
          - ⌊(holding.quantity : ℚ) * jsOrQ schedule.initialCliffPercent 25 / 100⌋
        ≤ ⌊((holding.quantity
            - ⌊(holding.quantity : ℚ) * jsOrQ schedule.initialCliffPercent 25 / 100⌋ : ℤ) : ℚ)
            * ((⌊((d1 - s : ℤ) : ℚ) / MONTH_MS⌋ - schedule.cliffMonths : ℤ) : ℚ)
            / ((schedule.totalMonths - schedule.cliffMonths : ℤ) : ℚ)⌋ := by
      refine Int.le_floor.mpr ?_
      rw [le_div_iff hrmQ]
      have hmac : ((schedule.totalMonths - schedule.cliffMonths : ℤ) : ℚ)
          ≤ ((⌊((d1 - s : ℤ) : ℚ) / MONTH_MS⌋ - schedule.cliffMonths : ℤ) : ℚ) := by
        exact_mod_cast sub_le_sub_right hm schedule.cliffMonths
      calc ((holding.quantity
              - ⌊(holding.quantity : ℚ) * jsOrQ schedule.initialCliffPercent 25 / 100⌋ : ℤ) : ℚ)
            * ((schedule.totalMonths - schedule.cliffMonths : ℤ) : ℚ)
          ≤ ((holding.quantity
              - ⌊(holding.quantity : ℚ) * jsOrQ schedule.initialCliffPercent 25 / 100⌋ : ℤ) : ℚ)
            * ((⌊((d1 - s : ℤ) : ℚ) / MONTH_MS⌋ - schedule.cliffMonths : ℤ) : ℚ) :=
            mul_le_mul_of_nonneg_left hmac hremQ
        _ = _ := rfl
    rw [min_eq_left hfl]
    have : ⌊(holding.quantity : ℚ) * jsOrQ schedule.initialCliffPercent 25 / 100⌋
        + (holding.quantity
            - ⌊(holding.quantity : ℚ) * jsOrQ schedule.initialCliffPercent 25 / 100⌋)
        = holding.quantity := by omega
    rw [this, min_self]

/-- C10: when a schedule's `initialCliffPercent` is 0, the `|| 25` fallback
makes the calculator vest `floor(total × 25/100)` at the cliff date instead
of 0 — a 0% cliff cannot be expressed. -/
theorem vesting_zero_cliff_defaults (holding : SecurityHolding) (state : CapTableState)
    (sid : String) (schedule : VestingSchedule) (s : ℤ)
    (hsid : holding.vestingScheduleId = some sid)
    (hfind : state.vestingSchedules.find? (fun v => v.id == sid) = some schedule)
    (hstart : holding.vestingStartDate = some s)
    (hicp : schedule.initialCliffPercent = 0)
    (hq : 0 ≤ holding.quantity) :
    calculateVestedOptions holding (s + schedule.cliffMonths * 2630016000) state
      = ⌊(holding.quantity : ℚ) * 25 / 100⌋ := by
  have hC := calculateVestedOptions_closed holding state sid schedule s hsid hfind hstart
  have hsub : ((s + schedule.cliffMonths * 2630016000) - s : ℤ)
      = schedule.cliffMonths * 2630016000 := by ring
  have hm : ⌊(((s + schedule.cliffMonths * 2630016000) - s : ℤ) : ℚ) / MONTH_MS⌋
      = schedule.cliffMonths := by
    rw [hsub]
    have h1 : ((schedule.cliffMonths * 2630016000 : ℤ) : ℚ) / MONTH_MS
        = (schedule.cliffMonths : ℚ) := by
      push_cast
      rw [MONTH_MS]
      field_simp
    rw [h1, Int.floor_intCast]
  have hcp : jsOrQ schedule.initialCliffPercent 25 = 25 := by
    simp [jsOrQ, hicp]
  have hqQ : (0 : ℚ) ≤ (holding.quantity : ℚ) := by exact_mod_cast hq
  have hcvq : ⌊(holding.quantity : ℚ) * 25 / 100⌋ ≤ holding.quantity := by
    have h1 : (holding.quantity : ℚ) * 25 / 100 ≤ (holding.quantity : ℚ) := by nlinarith
    calc ⌊(holding.quantity : ℚ) * 25 / 100⌋ ≤ ⌊(holding.quantity : ℚ)⌋ :=
          Int.floor_le_floor h1
      _ = holding.quantity := Int.floor_intCast holding.quantity
  have hcv0 : 0 ≤ ⌊(holding.quantity : ℚ) * 25 / 100⌋ := by
    refine Int.le_floor.mpr ?_
    have : (0:ℚ) ≤ (holding.quantity : ℚ) * 25 := by nlinarith
    simpa using div_nonneg this (by norm_num)
  rw [hC, hm, hcp, if_neg (lt_irrefl _)]
  simp only [sub_self, Int.cast_zero, mul_zero, zero_div, Int.floor_zero]
  omega

/-- C9 witness: Scenario D's 48,000-share grant with a 12-month 25% cliff and
48-month total, evaluated at month 24 and a millisecond after. -/
theorem vesting_monotone_cliff_total_witness :
    (calculateVestedOptions
        { id := "h1", holderId := "emp", shareClassId := "oc", quantity := 48000,
          sourceEventId := "ev", isOption := true, vestingScheduleId := some "vs",
          vestingStartDate := some 0 } 63120384000
        { companyId := "c",
          vestingSchedules := [{ id := "vs", cliffMonths := 12, totalMonths := 48, initialCliffPercent := 25 }] }
      ≤ calculateVestedOptions
        { id := "h1", holderId := "emp", shareClassId := "oc", quantity := 48000,
          sourceEventId := "ev", isOption := true, vestingScheduleId := some "vs",
          vestingStartDate := some 0 } 63120384001
        { companyId := "c",
          vestingSchedules := [{ id := "vs", cliffMonths := 12, totalMonths := 48, initialCliffPercent := 25 }] }) ∧
    ((63120384000 : ℤ) < 0 + 12 * 2630016000 →
      calculateVestedOptions
        { id := "h1", holderId := "emp", shareClassId := "oc", quantity := 48000,
          sourceEventId := "ev", isOption := true, vestingScheduleId := some "vs",
          vestingStartDate := some 0 } 63120384000
        { companyId := "c",
          vestingSchedules := [{ id := "vs", cliffMonths := 12, totalMonths := 48, initialCliffPercent := 25 }] } = 0) ∧
    ((0 : ℤ) + 48 * 2630016000 ≤ 63120384000 →
      calculateVestedOptions
        { id := "h1", holderId := "emp", shareClassId := "oc", quantity := 48000,
          sourceEventId := "ev", isOption := true, vestingScheduleId := some "vs",
          vestingStartDate := some 0 } 63120384000
        { companyId := "c",
          vestingSchedules := [{ id := "vs", cliffMonths := 12, totalMonths := 48, initialCliffPercent := 25 }] } = 48000) :=
  vesting_monotone_cliff_total
    { id := "h1", holderId := "emp", shareClassId := "oc", quantity := 48000,
      sourceEventId := "ev", isOption := true, vestingScheduleId := some "vs",
      vestingStartDate := some 0 }
    { companyId := "c",
      vestingSchedules := [{ id := "vs", cliffMonths := 12, totalMonths := 48, initialCliffPercent := 25 }] }
    "vs" { id := "vs", cliffMonths := 12, totalMonths := 48, initialCliffPercent := 25 }
    0 rfl (by simp) rfl (by norm_num) (by norm_num) (by norm_num) (by norm_num)
    63120384000 63120384001 (by norm_num)

/-- C10 witness: the same grant with `initialCliffPercent := 0` vests
`floor(48000 × 25/100)` at the cliff date. -/
theorem vesting_zero_cliff_defaults_witness :
    calculateVestedOptions
        { id := "h2", holderId := "emp", shareClassId := "oc", quantity := 48000,
          sourceEventId := "ev", isOption := true, vestingScheduleId := some "vz",
          vestingStartDate := some 0 } (0 + 12 * 2630016000)
        { companyId := "c",
          vestingSchedules := [{ id := "vz", cliffMonths := 12, totalMonths := 48, initialCliffPercent := 0 }] }
      = ⌊((48000 : ℤ) : ℚ) * 25 / 100⌋ :=
  vesting_zero_cliff_defaults
    { id := "h2", holderId := "emp", shareClassId := "oc", quantity := 48000,
      sourceEventId := "ev", isOption := true, vestingScheduleId := some "vz",
      vestingStartDate := some 0 }
    { companyId := "c",
      vestingSchedules := [{ id := "vz", cliffMonths := 12, totalMonths := 48, initialCliffPercent := 0 }] }
    "vz" { id := "vz", cliffMonths := 12, totalMonths := 48, initialCliffPercent := 0 }
    0 rfl (by simp) rfl rfl (by norm_num)

-- =============================================================================
-- C8: option exercise
-- =============================================================================

theorem updateFirst_decomp {α : Type} (p : α → Bool) (f : α → α) :
    ∀ (l : List α) (x : α), l.find? p = some x →
      ∃ l1 l2, l = l1 ++ x :: l2 ∧ (∀ a ∈ l1, p a = false) ∧ p x = true ∧
        updateFirst p f l = l1 ++ f x :: l2 := by
  intro l
  induction l with
  | nil => intro x hx; simp at hx
  | cons a t ih =>
    intro x hx
    by_cases hpa : p a
    · have hax : a = x := by
        rw [List.find?_cons_of_pos _ hpa] at hx
        simpa using hx
      subst hax
      refine ⟨[], t, by simp, by simp, hpa, ?_⟩
      simp [updateFirst, hpa]
    · rw [List.find?_cons_of_neg _ hpa] at hx
      obtain ⟨l1, l2, hdecomp, hl1, hpx, hupd⟩ := ih x hx
      refine ⟨a :: l1, l2, by simp [hdecomp], ?_, hpx, ?_⟩
      · intro b hb
        rcases List.mem_cons.mp hb with h | h
        · rw [h]; simpa using hpa
        · exact hl1 b h
      · simp [updateFirst, hpa, hupd]

theorem sum_filter_updateFirst_self {α : Type} (p : α → Bool) (f : α → α) (m : α → ℤ)
    (l : List α) (x : α) (hfind : l.find? p = some x) (hpf : p (f x) = true) :
    (((updateFirst p f l).filter p).map m).sum
      = ((l.filter p).map m).sum - m x + m (f x) := by
  obtain ⟨l1, l2, hdecomp, hl1, hpx, hupd⟩ := updateFirst_decomp p f l x hfind
  have hf1 : l1.filter p = [] := List.filter_eq_nil.mpr (fun a ha => by simp [hl1 a ha])
  rw [hupd, hdecomp]
  simp [List.filter_append, hf1, hpx, hpf]
  ring

theorem filter_updateFirst_other {α : Type} (p q : α → Bool) (f : α → α)
    (l : List α) (x : α) (hfind : l.find? p = some x)
    (hqx : q x = false) (hqfx : q (f x) = false) :
    (updateFirst p f l).filter q = l.filter q := by
  obtain ⟨l1, l2, hdecomp, hl1, hpx, hupd⟩ := updateFirst_decomp p f l x hfind
  rw [hupd, hdecomp]
  simp [List.filter_append, hqx, hqfx]

theorem mem_updateFirst_of_find? {α : Type} (p : α → Bool) (f : α → α)
    (l : List α) (x : α) (hfind : l.find? p = some x) :
    f x ∈ updateFirst p f l := by
  obtain ⟨l1, l2, hdecomp, hl1, hpx, hupd⟩ := updateFirst_decomp p f l x hfind
  rw [hupd]
  simp

/-- C8: applying an option exercise fails exactly when the grantee's vested
option quantity at the event date is smaller than the requested share count;
otherwise it succeeds, the grantee's total option-class quantity drops by
exactly the requested shares, their common-class quantity rises by the same
amount, and a common holding for the grantee exists afterwards (created if
absent). -/
theorem option_exercise_spec (g : Gen) (k : ℕ) (state : CapTableState)
    (event : EventBase) (employeeId : String) (shares : ℤ)
    (optionClass commonClass : ShareClass) (optionHolding : SecurityHolding)
    (hoc : state.shareClasses.find? (fun sc => sc.type == ShareClassType.option)
      = some optionClass)
    (hcc : state.shareClasses.find? (fun sc => sc.type == ShareClassType.common)
      = some commonClass)
    (hoh : state.holdings.find? (fun h => h.holderId == employeeId &&
        h.shareClassId == optionClass.id && h.isOption) = some optionHolding) :
    (calculateVestedOptions optionHolding event.date state < shares →
      ∃ msg, applyOptionExercise g k state event employeeId shares
        = Except.error msg) ∧
    (shares ≤ calculateVestedOptions optionHolding event.date state →
      ∃ st' k', applyOptionExercise g k state event employeeId shares
          = Except.ok (st', k') ∧
        ((st'.holdings.filter (fun h => h.holderId == employeeId &&
            h.shareClassId == optionClass.id && h.isOption)).map
            (fun h => h.quantity)).sum
          = ((state.holdings.filter (fun h => h.holderId == employeeId &&
              h.shareClassId == optionClass.id && h.isOption)).map
              (fun h => h.quantity)).sum - shares ∧
        ((st'.holdings.filter (fun h => h.holderId == employeeId &&
            h.shareClassId == commonClass.id && !h.isOption)).map
            (fun h => h.quantity)).sum
          = ((state.holdings.filter (fun h => h.holderId == employeeId &&
              h.shareClassId == commonClass.id && !h.isOption)).map
              (fun h => h.quantity)).sum + shares ∧
        ∃ h ∈ st'.holdings, h.holderId = employeeId ∧
          h.shareClassId = commonClass.id ∧ h.isOption = false) := by
  have hpx := List.find?_some hoh
  simp only [Bool.and_eq_true, beq_iff_eq] at hpx
  obtain ⟨⟨hx1, hx2⟩, hx3⟩ := hpx
  have hpcomx : (fun h => h.holderId == employeeId &&
      h.shareClassId == commonClass.id && !h.isOption) optionHolding = false := by
    simp [hx3]
  constructor
  · intro hlt
    refine ⟨"Insufficient vested options.", ?_⟩
    unfold applyOptionExercise
    simp only [hoc, hcc, hoh]
    rw [if_pos hlt]
  · intro hle
    unfold applyOptionExercise
    simp only [hoc, hcc, hoh]
    rw [if_neg (not_lt.mpr hle)]
    have hoptsum : (((updateFirst (fun h => h.holderId == employeeId &&
          h.shareClassId == optionClass.id && h.isOption)
          (fun h => { h with quantity := optionHolding.quantity - shares })
          state.holdings).filter (fun h => h.holderId == employeeId &&
          h.shareClassId == optionClass.id && h.isOption)).map
          (fun h => h.quantity)).sum
        = ((state.holdings.filter (fun h => h.holderId == employeeId &&
            h.shareClassId == optionClass.id && h.isOption)).map
            (fun h => h.quantity)).sum - shares := by
      rw [sum_filter_updateFirst_self _ _ _ state.holdings optionHolding hoh
        (by simp [hx1, hx2, hx3])]
      simp
      try ring
    have hcomkeep : ((updateFirst (fun h => h.holderId == employeeId &&
          h.shareClassId == optionClass.id && h.isOption)
          (fun h => { h with quantity := optionHolding.quantity - shares })
          state.holdings).filter (fun h => h.holderId == employeeId &&
          h.shareClassId == commonClass.id && !h.isOption))
        = state.holdings.filter (fun h => h.holderId == employeeId &&
            h.shareClassId == commonClass.id && !h.isOption) := by
      refine filter_updateFirst_other _ _ _ state.holdings optionHolding hoh
        hpcomx ?_
      simp [hx3]
    cases hcf : (updateFirst (fun h => h.holderId == employeeId &&
        h.shareClassId == optionClass.id && h.isOption)
        (fun h => { h with quantity := optionHolding.quantity - shares })
        state.holdings).find? (fun h => h.holderId == employeeId &&
        h.shareClassId == commonClass.id && !h.isOption) with
    | none =>
      simp only [hcf]
      refine ⟨_, _, rfl, ?_, ?_, ?_⟩
      · rw [List.filter_append]
        have hnew : (List.filter (fun h => h.holderId == employeeId &&
            h.shareClassId == optionClass.id && h.isOption)
            [({ id := (fresh g k).1, holderId := employeeId,
                shareClassId := commonClass.id, quantity := shares,
                sourceEventId := event.id, isOption := false } : SecurityHolding)]) = [] := by
          simp
        rw [hnew, List.append_nil]
        exact hoptsum
      · rw [List.filter_append]
        have hempty : (updateFirst (fun h => h.holderId == employeeId &&
            h.shareClassId == optionClass.id && h.isOption)
            (fun h => { h with quantity := optionHolding.quantity - shares })
            state.holdings).filter (fun h => h.holderId == employeeId &&
            h.shareClassId == commonClass.id && !h.isOption) = [] := by
          refine List.filter_eq_nil.mpr ?_
          intro a ha
          have := List.find?_eq_none.mp hcf a ha
          simpa using this
        have hempty2 : state.holdings.filter (fun h => h.holderId == employeeId &&
            h.shareClassId == commonClass.id && !h.isOption) = [] := by
          rw [← hcomkeep]; exact hempty
        rw [hempty, hempty2]
        simp
      · refine ⟨_, List.mem_append_right _ (List.mem_singleton_self _), rfl, rfl, rfl⟩
    | some y =>
      have hpy := List.find?_some hcf
      simp only [Bool.and_eq_true, beq_iff_eq, Bool.not_eq_true'] at hpy
      obtain ⟨⟨hy1, hy2⟩, hy3⟩ := hpy
      simp only [hcf]
      refine ⟨_, _, rfl, ?_, ?_, ?_⟩
      · rw [filter_updateFirst_other _ _ _ _ y hcf ?hq1 ?hq2]
        · exact hoptsum
        case hq1 => simp [hy3]
        case hq2 => simp [hy3]
      · rw [sum_filter_updateFirst_self _ _ _ _ y hcf (by simp [hy1, hy2, hy3])]
        rw [hcomkeep]
        simp
        ring
      · refine ⟨_, mem_updateFirst_of_find? _ _ _ y hcf, ?_, ?_, ?_⟩ <;> simp [hy1, hy2, hy3]

/-- C8 witness: an employee with 100 fully-vested options (no schedule)
exercises 40 of them successfully. -/
theorem option_exercise_spec_witness :
    ∃ st' k', applyOptionExercise (fun n => String.append "u" (toString n)) 0
      { companyId := "c",
        shareClasses := [
          { id := "cc", name := "Common", type := ShareClassType.common,
            seniorityRank := 0, liquidationPreferenceMultiple := 1,
            participation := ParticipationType.non_participating,
            isConvertibleToCommon := false },
          { id := "oc", name := "Employee Options", type := ShareClassType.option,
            seniorityRank := 0, liquidationPreferenceMultiple := 0,
            participation := ParticipationType.non_participating,
            isConvertibleToCommon := true }],
        holdings := [
          { id := "h", holderId := "emp", shareClassId := "oc", quantity := 100,
            sourceEventId := "e0", isOption := true }] }
      { id := "ev", companyId := "c", date := 0, label := "exercise",
        data := EventData.optionExercise "emp" 40 }
      "emp" 40 = Except.ok (st', k') := by
  obtain ⟨st', k', heq, -, -, -⟩ :=
    (option_exercise_spec (fun n => String.append "u" (toString n)) 0
      { companyId := "c",
        shareClasses := [
          { id := "cc", name := "Common", type := ShareClassType.common,
            seniorityRank := 0, liquidationPreferenceMultiple := 1,
            participation := ParticipationType.non_participating,
            isConvertibleToCommon := false },
          { id := "oc", name := "Employee Options", type := ShareClassType.option,
            seniorityRank := 0, liquidationPreferenceMultiple := 0,
            participation := ParticipationType.non_participating,
            isConvertibleToCommon := true }],
        holdings := [
          { id := "h", holderId := "emp", shareClassId := "oc", quantity := 100,
            sourceEventId := "e0", isOption := true }] }
      { id := "ev", companyId := "c", date := 0, label := "exercise",
        data := EventData.optionExercise "emp" 40 }
      "emp" 40
      { id := "oc", name := "Employee Options", type := ShareClassType.option,
        seniorityRank := 0, liquidationPreferenceMultiple := 0,
        participation := ParticipationType.non_participating,
        isConvertibleToCommon := true }
      { id := "cc", name := "Common", type := ShareClassType.common,
        seniorityRank := 0, liquidationPreferenceMultiple := 1,
        participation := ParticipationType.non_participating,
        isConvertibleToCommon := false }
      { id := "h", holderId := "emp", shareClassId := "oc", quantity := 100,
        sourceEventId := "e0", isOption := true }
      (by simp) (by simp) (by simp)).2
      (by norm_num [calculateVestedOptions])
  exact ⟨st', k', heq⟩

-- =============================================================================
-- C7: ESOP percentage guard
-- =============================================================================

/-- C7: the ≥100% domain guard exists only on the pool-creation path.
`calculateESOPPoolFromPercent` throws for a 120% target, but applying an ESOP
pool extension event with a 150% target raises no error at all: the code
computes a negative target pool, clamps the extension to zero and applies the
event as a no-op (only the as-of markers change). -/
theorem esop_percent_guard_divergence :
    (calculateESOPPoolFromPercent 1000 (120/100)
      = Except.error "Target ESOP percentage must be less than 100%") ∧
    (applyEvent (fun n => String.append "g" (toString n))
      { companyId := "c",
        shareClasses := [
          { id := "cc", name := "Common", type := ShareClassType.common,
            seniorityRank := 0, liquidationPreferenceMultiple := 1,
            participation := ParticipationType.non_participating,
            isConvertibleToCommon := false },
          { id := "oc", name := "Employee Options", type := ShareClassType.option,
            seniorityRank := 0, liquidationPreferenceMultiple := 0,
            participation := ParticipationType.non_participating,
            isConvertibleToCommon := true }],
        holdings := [
          { id := "h1", holderId := "f", shareClassId := "cc", quantity := 900,
            sourceEventId := "e0", isOption := false },
          { id := "h2", holderId := "__esop_pool__", shareClassId := "oc",
            quantity := 100, sourceEventId := "e0", isOption := true }] }
      { id := "ev7", companyId := "c", date := 5, label := "extend pool",
        data := EventData.esopPoolExtension 150 } 0
      = Except.ok (
        { companyId := "c",
          asOfEventId := some "ev7", asOfDate := some 5,
          shareClasses := [
            { id := "cc", name := "Common", type := ShareClassType.common,
              seniorityRank := 0, liquidationPreferenceMultiple := 1,
              participation := ParticipationType.non_participating,
              isConvertibleToCommon := false },
            { id := "oc", name := "Employee Options", type := ShareClassType.option,
              seniorityRank := 0, liquidationPreferenceMultiple := 0,
              participation := ParticipationType.non_participating,
              isConvertibleToCommon := true }],
          holdings := [
            { id := "h1", holderId := "f", shareClassId := "cc", quantity := 900,
              sourceEventId := "e0", isOption := false },
            { id := "h2", holderId := "__esop_pool__", shareClassId := "oc",
              quantity := 100, sourceEventId := "e0", isOption := true }] }, 0)) := by
  constructor
  · norm_num [calculateESOPPoolFromPercent]
  · norm_num [applyEvent, stampAsOf, applyESOPPoolExtension, calculatePreRoundMetrics,
      getUnallocatedESOPPool, calculateESOPExtension, roundShares, roundHalfUp,
      ESOP_POOL_HOLDER_ID, List.foldl, List.find?, Except.map]

-- =============================================================================
-- C3: waterfall total
-- =============================================================================

theorem foldl_add_proceeds_eq_sum : ∀ (l : List ExitDistribution) (init : ℚ),
    l.foldl (fun s r => s + r.proceeds) init = init + (l.map (fun r => r.proceeds)).sum := by
  intro l
  induction l with
  | nil => intro init; simp
  | cons a t ih =>
    intro init
    simp only [List.foldl_cons, List.map_cons, List.sum_cons, ih]
    ring

/-- C3 (amended): the reported `totalDistributed` is exactly the sum of the
per-holder distribution rows' proceeds, for every state, exit valuation and
identifier stream. (The bound `totalDistributed ≤ exitValuation` claimed
alongside it is false in general; see the counterexample.) -/
theorem total_distributed_eq_sum (g : Gen) (k : ℕ) (state : CapTableState) (v : ℚ) :
    (calculateExitWaterfall g k state v).totalDistributed
      = ((calculateExitWaterfall g k state v).distributions.map
          (fun r => r.proceeds)).sum := by
  unfold calculateExitWaterfall
  simp only [foldl_add_proceeds_eq_sum, zero_add]

/-- C3 counterexample: a single 1x preferred holder with 100 shares at issue
price $1 and an exit of $50 is paid the full $100 preference, so
`totalDistributed = 100 > 50 = exitValuation`. -/
theorem total_distributed_exceeds_exit_counterexample :
    (calculateExitWaterfall (fun n => String.append "w" (toString n)) 0
      { companyId := "c",
        shareClasses := [
          { id := "pp", name := "Series A", type := ShareClassType.preferred,
            seniorityRank := 1, liquidationPreferenceMultiple := 1,
            participation := ParticipationType.non_participating,
            isConvertibleToCommon := true, pricePerShare := some 1 }],
        holdings := [
          { id := "hb", holderId := "B", shareClassId := "pp", quantity := 100,
            sourceEventId := "e0", isOption := false,
            investmentAmount := some 100 }],
        people := [{ id := "B", name := "Investor B", type := PersonType.investor }] }
      50).totalDistributed = 100 ∧
    ¬ ((100 : ℚ) ≤ 50) := by
  constructor
  · norm_num [calculateExitWaterfall, exitConvertSafes, waterfallDistributions,
      waterfallRows, payPreferences, waterfallHolderProceeds,
      holderPreferenceAmount, holderConversionAmount, totalCommonEquivalentOf,
      classTotal, holderInvestment, commonHoldingsOf, distAdd, alGet, alSet,
      dedupKeepFirst, roundCents, roundHalfUp, jsOrQ, ESOP_POOL_HOLDER_ID,
      List.insertionSort, List.orderedInsert, List.foldl, List.find?, List.filter]
    simp
    norm_num
  · norm_num


-- =============================================================================
-- C2: participating preferred
-- =============================================================================

theorem c2_convert (g : Gen) (k : ℕ) (v : ℚ) :
    exitConvertSafes g k c2State v = (c2State, k) := rfl

theorem c2_prefClasses :
    c2State.shareClasses.filter (fun sc => sc.type == ShareClassType.preferred)
      = [c2Pref] := rfl

theorem c2_nonOptionClasses :
    c2State.shareClasses.filter (fun sc => sc.type != ShareClassType.option)
      = [c2Common, c2Pref] := rfl

theorem c2_commonHoldings : commonHoldingsOf c2State = [c2HA] := rfl

theorem c2_filterCC :
    c2State.holdings.filter (fun h => h.shareClassId == "cc") = [c2HA] := rfl

theorem c2_filterPP :
    c2State.holdings.filter (fun h => h.shareClassId == "pp") = [c2HB] := rfl

theorem c2_filterHolderA :
    c2State.holdings.filter (fun h => h.holderId == "A") = [c2HA] := rfl

theorem c2_filterHolderB :
    c2State.holdings.filter (fun h => h.holderId == "B") = [c2HB] := rfl

theorem c2_people : c2State.people = [c2PA, c2PB] := rfl

theorem c2_tce : totalCommonEquivalentOf c2State = 6000000 := by
  norm_num [totalCommonEquivalentOf, c2_nonOptionClasses, List.foldl, classTotal,
    c2Common, c2Pref, c2_filterCC, c2_filterPP, c2HA, c2HB]

theorem c2_pay :
    payPreferences 10000000 6000000 c2State [c2Pref]
      = [("B", (1000000, ["participating"]))] := by
  norm_num [payPreferences, List.foldl, classTotal, c2Pref, c2_filterPP, c2HB,
    waterfallHolderProceeds, holderPreferenceAmount, holderConversionAmount,
    jsOrQ, distAdd, alGet, alSet, List.find?]

theorem c2_dists :
    waterfallDistributions c2State 10000000
      = [("B", (1000000, ["participating"])), ("A", (9000000, ["common"]))] := by
  simp only [waterfallDistributions, c2_prefClasses, c2_tce, c2_commonHoldings]
  norm_num [List.insertionSort, List.orderedInsert, c2_pay, List.foldl,
    c2HA, distAdd, alGet, alSet, List.find?]
  repeat' split
  all_goals simp_all

theorem c2_rows :
    waterfallRows c2State 10000000
      [("B", (1000000, ["participating"])), ("A", (9000000, ["common"]))]
      = [{ holderId := "A", holderName := "Alice",
           holderType := PersonType.founder, proceeds := 9000000,
           percentOfExit := 90, investmentAmount := 0, multiple := none,
           method := ["common"] },
         { holderId := "B", holderName := "Bob",
           holderType := PersonType.investor, proceeds := 1000000,
           percentOfExit := 10, investmentAmount := 1000000,
           multiple := some 1, method := ["participating"] }] := by
  norm_num [waterfallRows, c2_people, List.foldl, c2PA, c2PB, alGet, List.find?,
    holderInvestment, c2_filterHolderA, c2_filterHolderB, c2HA, c2HB,
    roundCents, roundHalfUp, dedupKeepFirst, ESOP_POOL_HOLDER_ID]
  repeat' split
  all_goals simp_all
  all_goals subst_vars
  all_goals norm_num [List.foldl]

/-- C2 counterexample: at a $10,000,000 exit over `c2State` (5,000,000 common,
1,000,000 participating 1x preferred at $1 with a cap multiple of 3 set),
holder B of the participating class receives exactly the $1,000,000 bare
preference, not the claimed preference plus pro-rata share
$1,000,000 + $9,000,000 × 1,000,000/6,000,000 = $2,500,000. -/
theorem participating_counterexample :
    ((calculateExitWaterfall (fun n => String.append "x" (toString n)) 0 c2State
      10000000).distributions.map (fun r => (r.holderId, r.proceeds, r.method)))
      = [("A", 9000000, ["common"]), ("B", 1000000, ["participating"])] ∧
    ¬ ((1000000 : ℚ)
        = 1000000 * 1 * 1 + (10000000 - 1000000) * 1000000 / 6000000) := by
  constructor
  · simp only [calculateExitWaterfall, c2_convert, c2_dists, c2_rows]
    norm_num [List.insertionSort, List.orderedInsert]
  · norm_num

/-- C2 (amended): in the preference stage a holding of a class marked
`participating` is paid exactly its bare liquidation preference with method
label `participating` — no pro-rata share of the remainder is added there —
and the class's `participationCapMultiple` never influences the payout. -/
theorem participating_pays_bare_preference (ev tce : ℚ) (sc : ShareClass)
    (h : SecurityHolding)
    (hp : sc.participation = ParticipationType.participating) :
    waterfallHolderProceeds ev tce sc h
      = (holderPreferenceAmount sc h, "participating") ∧
    ∀ cap : ℚ,
      waterfallHolderProceeds ev tce
          { sc with participationCapMultiple := some cap } h
        = waterfallHolderProceeds ev tce sc h := by
  constructor
  · simp [waterfallHolderProceeds, hp]
  · intro cap
    rfl

theorem participating_pays_bare_preference_witness :
    c2Pref.participation = ParticipationType.participating ∧
    waterfallHolderProceeds 10000000 6000000 c2Pref c2HB
      = (holderPreferenceAmount c2Pref c2HB, "participating") :=
  ⟨rfl, (participating_pays_bare_preference 10000000 6000000 c2Pref c2HB rfl).1⟩

-- =============================================================================
-- C6: non-participating preferred
-- =============================================================================

theorem c6_convert (g : Gen) (k : ℕ) (v : ℚ) :
    exitConvertSafes g k c6State v = (c6State, k) := rfl

theorem c6_prefClasses :
    c6State.shareClasses.filter (fun sc => sc.type == ShareClassType.preferred)
      = [c6Pref] := rfl

theorem c6_nonOptionClasses :
    c6State.shareClasses.filter (fun sc => sc.type != ShareClassType.option)
      = [c2Common, c6Pref] := rfl

theorem c6_commonHoldings : commonHoldingsOf c6State = [c6HA] := rfl

theorem c6_filterCC :
    c6State.holdings.filter (fun h => h.shareClassId == "cc") = [c6HA] := rfl

theorem c6_filterPP :
    c6State.holdings.filter (fun h => h.shareClassId == "pp") = [c6HB] := rfl

theorem c6_filterHolderA :
    c6State.holdings.filter (fun h => h.holderId == "A") = [c6HA] := rfl

theorem c6_filterHolderB :
    c6State.holdings.filter (fun h => h.holderId == "B") = [c6HB] := rfl

theorem c6_people : c6State.people = [c2PA, c2PB] := rfl

theorem c6_tce : totalCommonEquivalentOf c6State = 10000000 := by
  norm_num [totalCommonEquivalentOf, c6_nonOptionClasses, List.foldl, classTotal,
    c2Common, c6Pref, c6_filterCC, c6_filterPP, c6HA, c6HB]

theorem c6_pay :
    payPreferences 20000000 10000000 c6State [c6Pref]
      = [("B", (4000000, ["conversion"]))] := by
  norm_num [payPreferences, List.foldl, classTotal, c6Pref, c6_filterPP, c6HB,
    waterfallHolderProceeds, holderPreferenceAmount, holderConversionAmount,
    jsOrQ, distAdd, alGet, alSet, List.find?]
  simp

theorem c6_dists :
    waterfallDistributions c6State 20000000
      = [("B", (4000000, ["conversion"])), ("A", (16000000, ["common"]))] := by
  simp only [waterfallDistributions, c6_prefClasses, c6_tce, c6_commonHoldings]
  norm_num [List.insertionSort, List.orderedInsert, c6_pay, List.foldl,
    c6HA, distAdd, alGet, alSet, List.find?]
  repeat' split
  all_goals simp_all

theorem c6_rows :
    waterfallRows c6State 20000000
      [("B", (4000000, ["conversion"])), ("A", (16000000, ["common"]))]
      = [{ holderId := "A", holderName := "Alice",
           holderType := PersonType.founder, proceeds := 16000000,
           percentOfExit := 80, investmentAmount := 0, multiple := none,
           method := ["common"] },
         { holderId := "B", holderName := "Bob",
           holderType := PersonType.investor, proceeds := 4000000,
           percentOfExit := 20, investmentAmount := 2000000,
           multiple := some 2, method := ["conversion"] }] := by
  norm_num [waterfallRows, c6_people, List.foldl, c2PA, c2PB, alGet, List.find?,
    holderInvestment, c6_filterHolderA, c6_filterHolderB, c6HA, c6HB,
    roundCents, roundHalfUp, dedupKeepFirst, ESOP_POOL_HOLDER_ID]
  repeat' split
  all_goals simp_all
  all_goals subst_vars
  all_goals norm_num [List.foldl]

/-- C6: a holding of a non-participating preferred class is paid the maximum
of its liquidation preference and its as-converted value; concretely, at a
$20,000,000 exit over `c6State`, the single 1x non-participating preferred
holder with 2,000,000 of 10,000,000 fully diluted shares at $1.00 issue price
receives $4,000,000 with method `conversion`. -/
theorem non_participating_max_conversion (ev tce : ℚ) (sc : ShareClass)
    (h : SecurityHolding)
    (hp : sc.participation = ParticipationType.non_participating) :
    (waterfallHolderProceeds ev tce sc h).1
      = max (holderPreferenceAmount sc h) (holderConversionAmount ev tce h) ∧
    ((calculateExitWaterfall (fun n => String.append "x" (toString n)) 0 c6State
      20000000).distributions.map (fun r => (r.holderId, r.proceeds, r.method)))
      = [("A", 16000000, ["common"]), ("B", 4000000, ["conversion"])] := by
  constructor
  · simp only [waterfallHolderProceeds, hp]
    rcases lt_or_le (holderConversionAmount ev tce h) (holderPreferenceAmount sc h)
      with hlt | hle
    · simp [hlt, max_eq_left (le_of_lt hlt)]
    · simp [not_lt.mpr hle, max_eq_right hle]
  · simp only [calculateExitWaterfall, c6_convert, c6_dists, c6_rows]
    norm_num [List.insertionSort, List.orderedInsert]

theorem non_participating_max_conversion_witness :
    c6Pref.participation = ParticipationType.non_participating ∧
    (waterfallHolderProceeds 20000000 10000000 c6Pref c6HB).1
      = max (holderPreferenceAmount c6Pref c6HB)
          (holderConversionAmount 20000000 10000000 c6HB) :=
  ⟨rfl, (non_participating_max_conversion 20000000 10000000 c6Pref c6HB rfl).1⟩

-- =============================================================================
-- Replay determinism up to renaming of generated identifiers
-- =============================================================================

section Equivariance

variable {ρ : String → String}

/-- `==` on renamed strings agrees with `==` on the originals. -/
theorem beq_map (hinj : Function.Injective ρ) (a b : String) :
    (ρ a == ρ b) = (a == b) := by
  by_cases h : a = b
  · simp [h]
  · have h2 : ¬ ρ a = ρ b := hinj.ne h
    simp [h, h2]

/-- `==` against a `ρ`-fixed identifier is unchanged by renaming. -/
theorem beq_map_fixed (hinj : Function.Injective ρ) {x : String} (hx : ρ x = x)
    (a : String) : (ρ a == x) = (a == x) := by
  conv_lhs => rw [← hx]
  exact beq_map hinj a x

theorem updateFirst_map {α : Type} (m : α → α) (p q : α → Bool) (u v : α → α)
    (hp : ∀ a, p (m a) = q a) (hu : ∀ a, u (m a) = m (v a)) :
    ∀ l : List α, updateFirst p u (l.map m) = (updateFirst q v l).map m := by
  intro l
  induction l with
  | nil => rfl
  | cons x xs ih =>
    simp only [List.map_cons, updateFirst, hp x]
    by_cases hq : q x = true
    · simp [hq, hu x]
    · simp only [Bool.not_eq_true] at hq
      simp [hq, ih]

theorem metrics_mapState (hinj : Function.Injective ρ) (s : CapTableState) :
    calculatePreRoundMetrics (mapState ρ s) = calculatePreRoundMetrics s := by
  simp only [calculatePreRoundMetrics, mapState, List.foldl_map]
  congr 1
  funext acc h
  rw [List.find?_map]
  have : ((fun sc => sc.id == (mapHolding ρ h).shareClassId) ∘ mapShareClass ρ)
      = fun sc => sc.id == h.shareClassId := by
    funext sc
    simp [Function.comp, mapShareClass, mapHolding, beq_map hinj]
  rw [this]
  cases s.shareClasses.find? (fun sc => sc.id == h.shareClassId) with
  | none => simp [mapHolding]
  | some sc => simp [mapHolding, mapShareClass]

theorem pool_mapState (hinj : Function.Injective ρ)
    (hs : ρ ESOP_POOL_HOLDER_ID = ESOP_POOL_HOLDER_ID) (s : CapTableState) :
    getUnallocatedESOPPool (mapState ρ s) = getUnallocatedESOPPool s := by
  simp only [getUnallocatedESOPPool, mapState, List.find?_map]
  have : ((fun h => h.holderId == ESOP_POOL_HOLDER_ID && h.isOption) ∘ mapHolding ρ)
      = fun h => h.holderId == ESOP_POOL_HOLDER_ID && h.isOption := by
    funext h
    simp [Function.comp, mapHolding, beq_map_fixed hinj hs]
  rw [this]
  cases s.holdings.find? (fun h => h.holderId == ESOP_POOL_HOLDER_ID && h.isOption) with
  | none => rfl
  | some h => simp [mapHolding]

theorem vested_mapState (hinj : Function.Injective ρ)
    (h : SecurityHolding) (d : ℤ) (s : CapTableState) :
    calculateVestedOptions (mapHolding ρ h) d (mapState ρ s)
      = calculateVestedOptions h d s := by
  simp only [calculateVestedOptions, mapHolding]
  cases h.vestingScheduleId with
  | none => rfl
  | some sid =>
    simp only [Option.map_some', mapState, List.find?_map]
    have : ((fun v => v.id == ρ sid) ∘ mapVestingSchedule ρ)
        = fun v => v.id == sid := by
      funext v
      simp [Function.comp, mapVestingSchedule, beq_map hinj]
    rw [this]
    cases s.vestingSchedules.find? (fun v => v.id == sid) with
    | none => rfl
    | some sch => rfl

theorem safeConversion_mapSafe (safe : SAFE) (p fd : ℚ) :
    calculateSAFEConversion (mapSafe ρ safe) p fd
      = calculateSAFEConversion safe p fd := rfl

theorem safeSharesEstimate_map (l : List SAFE) (a b c : ℚ) :
    computeSafeSharesEstimate (l.map (mapSafe ρ)) a b c
      = computeSafeSharesEstimate l a b c := by
  simp only [computeSafeSharesEstimate, List.foldl_map]
  rfl

theorem iterateRoundPrice_map (l : List SAFE) (a b c : ℚ) :
    ∀ (p : ℚ) (n : ℕ),
      iterateRoundPrice (l.map (mapSafe ρ)) a b c p n = iterateRoundPrice l a b c p n := by
  intro p n
  induction n generalizing p with
  | zero => rfl
  | succ n ih =>
    simp only [iterateRoundPrice, safeSharesEstimate_map]
    split_ifs
    · rfl
    · exact ih _

theorem people_any_map (hinj : Function.Injective ρ) {x : String} (hx : ρ x = x)
    (l : List Person) :
    (l.map (mapPerson ρ)).any (fun p => p.id == x) = l.any (fun p => p.id == x) := by
  rw [List.any_map]
  congr 1
  funext p
  simp [Function.comp, mapPerson, beq_map_fixed hinj hx]

theorem mapState_holdings_append (s : CapTableState) (h : SecurityHolding) :
    mapState ρ { s with holdings := s.holdings ++ [h] }
      = { mapState ρ s with holdings := (mapState ρ s).holdings ++ [mapHolding ρ h] } := by
  simp [mapState]

theorem mapState_people_append (s : CapTableState) (p : Person) :
    mapState ρ { s with people := s.people ++ [p] }
      = { mapState ρ s with people := (mapState ρ s).people ++ [mapPerson ρ p] } := by
  simp [mapState]

theorem mapState_classes_append (s : CapTableState) (c : ShareClass) :
    mapState ρ { s with shareClasses := s.shareClasses ++ [c] }
      = { mapState ρ s with
          shareClasses := (mapState ρ s).shareClasses ++ [mapShareClass ρ c] } := by
  simp [mapState]

theorem mapState_safes_append (s : CapTableState) (x : SAFE) :
    mapState ρ { s with safes := s.safes ++ [x] }
      = { mapState ρ s with safes := (mapState ρ s).safes ++ [mapSafe ρ x] } := by
  simp [mapState]

theorem mapState_schedules_append (s : CapTableState) (v : VestingSchedule) :
    mapState ρ { s with vestingSchedules := s.vestingSchedules ++ [v] }
      = { mapState ρ s with
          vestingSchedules := (mapState ρ s).vestingSchedules ++ [mapVestingSchedule ρ v] } := by
  simp [mapState]

theorem mapState_set_holdings (s : CapTableState) (l : List SecurityHolding) :
    mapState ρ { s with holdings := l }
      = { mapState ρ s with holdings := l.map (mapHolding ρ) } := by
  simp [mapState]

theorem mapState_set_safes (s : CapTableState) (l : List SAFE) :
    mapState ρ { s with safes := l }
      = { mapState ρ s with safes := l.map (mapSafe ρ) } := by
  simp [mapState]

theorem foldl_pair_hom {β : Type} (m : CapTableState → CapTableState)
    (step1 step2 : CapTableState × ℕ → β → CapTableState × ℕ) (l : List β) :
    (∀ acc b, b ∈ l → step2 (m acc.1, acc.2) b
        = ((step1 acc b).1 |> m, (step1 acc b).2)) →
    ∀ (s0 : CapTableState) (k0 : ℕ),
      l.foldl step2 (m s0, k0)
        = ((l.foldl step1 (s0, k0)).1 |> m, (l.foldl step1 (s0, k0)).2) := by
  intro hstep
  induction l with
  | nil => intro s0 k0; rfl
  | cons x xs ih =>
    intro s0 k0
    simp only [List.foldl_cons]
    rw [show ((m s0, k0) : CapTableState × ℕ) = (m (s0, k0).1, (s0, k0).2) from rfl,
      hstep (s0, k0) x (by simp)]
    exact ih (fun acc b hb => hstep acc b (by simp [hb])) (step1 (s0, k0) x).1
      (step1 (s0, k0) x).2

theorem find?_class_type_map (l : List ShareClass) (t : ShareClassType) :
    (l.map (mapShareClass ρ)).find? (fun sc => sc.type == t)
      = (l.find? (fun sc => sc.type == t)).map (mapShareClass ρ) := by
  rw [List.find?_map]
  congr 1

theorem mapHolding_quantity (h : SecurityHolding) (q : ℤ) :
    mapHolding ρ { h with quantity := q } = { mapHolding ρ h with quantity := q } := rfl

theorem updateFirst_false {α : Type} (f : α → α) :
    ∀ l : List α, updateFirst (fun _ => false) f l = l := by
  intro l
  induction l with
  | nil => rfl
  | cons x xs ih => simp [updateFirst, ih]

theorem updateFirst_quantity_map (p q : SecurityHolding → Bool)
    (hp : ∀ h, p (mapHolding ρ h) = q h) (e : ℤ) (l : List SecurityHolding) :
    updateFirst p (fun h => { h with quantity := h.quantity + e })
        (l.map (mapHolding ρ))
      = (updateFirst q (fun h => { h with quantity := h.quantity + e }) l).map
          (mapHolding ρ) :=
  updateFirst_map (mapHolding ρ) p q
    (fun h => { h with quantity := h.quantity + e })
    (fun h => { h with quantity := h.quantity + e }) hp (fun _ => rfl) l

theorem poolExtension_equivariant (hinj : Function.Injective ρ)
    (hs : ρ ESOP_POOL_HOLDER_ID = ESOP_POOL_HOLDER_ID)
    (state : CapTableState) (t : ℚ) :
    applyESOPPoolExtension (mapState ρ state) t
      = (applyESOPPoolExtension state t).map (mapState ρ) := by
  simp only [applyESOPPoolExtension, metrics_mapState hinj,
    pool_mapState hinj hs state]
  split_ifs
  · have hcls : (mapState ρ state).shareClasses
        = state.shareClasses.map (mapShareClass ρ) := rfl
    have hhold : (mapState ρ state).holdings
        = state.holdings.map (mapHolding ρ) := rfl
    rw [hcls, find?_class_type_map]
    cases hoc : state.shareClasses.find? (fun sc => sc.type == ShareClassType.option) with
    | none =>
      simp only [Option.map_none', hhold, updateFirst_false]
      simp [Except.map, mapState]
    | some oc =>
      simp only [Option.map_some', hhold]
      rw [updateFirst_quantity_map
        (fun h => h.holderId == ESOP_POOL_HOLDER_ID &&
          h.shareClassId == (mapShareClass ρ oc).id)
        (fun h => h.holderId == ESOP_POOL_HOLDER_ID && h.shareClassId == oc.id)
        (fun h => by
          simp [mapHolding, mapShareClass, beq_map_fixed hinj hs, beq_map hinj])]
      simp [Except.map, mapState_set_holdings, mapState]
  · simp [Except.map]

theorem option_map_fixed (o : Option String) (hf : ∀ c ∈ o, ρ c = c) :
    o.map ρ = o := by
  cases o with
  | none => rfl
  | some c => simp [hf c (by simp)]

theorem mem_safeIds_of_mem (safes : List SafeSpec) (sp : SafeSpec)
    (hm : sp ∈ safes) (x : String)
    (hx : x ∈ sp.id.toList ++ [sp.investorId] ++ sp.conversionShareClassId.toList) :
    x ∈ eventDataIds (EventData.safeIssuance safes) := by
  simp only [eventDataIds]
  induction safes with
  | nil => cases hm
  | cons y ys ih =>
    rcases List.mem_cons.mp hm with rfl | hys
    · simp only [List.foldr_cons]
      simp only [List.mem_append] at hx ⊢
      tauto
    · have := ih hys
      simp only [List.foldr_cons, List.mem_append]
      tauto

theorem mapState_people_safes_append (s : CapTableState) (p : Person) (x : SAFE) :
    mapState ρ { s with people := s.people ++ [p], safes := s.safes ++ [x] }
      = { mapState ρ s with
          people := (mapState ρ s).people ++ [mapPerson ρ p],
          safes := (mapState ρ s).safes ++ [mapSafe ρ x] } := by
  simp [mapState]

theorem mapState_people_holdings_append (s : CapTableState) (p : Person)
    (h : SecurityHolding) :
    mapState ρ { s with people := s.people ++ [p], holdings := s.holdings ++ [h] }
      = { mapState ρ s with
          people := (mapState ρ s).people ++ [mapPerson ρ p],
          holdings := (mapState ρ s).holdings ++ [mapHolding ρ h] } := by
  simp [mapState]

theorem safeIssuance_equivariant (hinj : Function.Injective ρ)
    (g : Gen) (k : ℕ) (state : CapTableState) (event : EventBase)
    (safes : List SafeSpec)
    (hfix : ∀ s ∈ eventDataIds (EventData.safeIssuance safes), ρ s = s) :
    applySAFEIssuance (fun n => ρ (g n)) k (mapState ρ state) event safes
      = (applySAFEIssuance g k state event safes).map
          (fun p => (mapState ρ p.1, p.2)) := by
  simp only [applySAFEIssuance, Except.map]
  congr 1
  refine foldl_pair_hom (mapState ρ) _ _ safes ?_ state k
  intro acc sp hmem
  have hinvf : ρ sp.investorId = sp.investorId :=
    hfix _ (mem_safeIds_of_mem safes sp hmem _ (by simp))
  have hid : ∀ i ∈ sp.id, ρ i = i := fun i hi =>
    hfix _ (mem_safeIds_of_mem safes sp hmem i (by simp [Option.mem_toList, hi]))
  have hconv : ∀ c ∈ sp.conversionShareClassId, ρ c = c := fun c hc =>
    hfix _ (mem_safeIds_of_mem safes sp hmem c (by simp [Option.mem_toList, hc]))
  simp only []
  rw [show (mapState ρ acc.1).people = acc.1.people.map (mapPerson ρ) from rfl,
    people_any_map hinj hinvf]
  by_cases hb : acc.1.people.any (fun p => p.id == sp.investorId) = true
  · rw [if_pos hb, if_pos hb]
    cases hsid : sp.id with
    | some i =>
      have hif : ρ i = i := hid i (by simp [hsid])
      simp only [hsid]
      rw [mapState_safes_append]
      simp [mapSafe, hif, hinvf, option_map_fixed _ hconv]
    | none =>
      simp only [hsid, fresh]
      rw [mapState_safes_append]
      simp [mapSafe, hinvf, option_map_fixed _ hconv]
  · rw [if_neg hb, if_neg hb]
    cases hsid : sp.id with
    | some i =>
      have hif : ρ i = i := hid i (by simp [hsid])
      simp only [hsid]
      rw [mapState_people_safes_append]
      simp [mapSafe, mapPerson, mapState, hinvf, hif, option_map_fixed _ hconv]
    | none =>
      simp only [hsid, fresh]
      rw [mapState_people_safes_append]
      simp [mapSafe, mapPerson, mapState, hinvf, option_map_fixed _ hconv]

theorem pool_any_map (hinj : Function.Injective ρ)
    (hs : ρ ESOP_POOL_HOLDER_ID = ESOP_POOL_HOLDER_ID) (cid : String)
    (l : List SecurityHolding) :
    (l.map (mapHolding ρ)).any (fun h => h.holderId == ESOP_POOL_HOLDER_ID &&
        h.shareClassId == ρ cid)
      = l.any (fun h => h.holderId == ESOP_POOL_HOLDER_ID &&
          h.shareClassId == cid) := by
  rw [List.any_map]
  congr 1
  funext h
  simp only [Function.comp, mapHolding]
  rw [beq_map_fixed hinj hs, beq_map hinj]

theorem ensurePerson_equivariant (hinj : Function.Injective ρ)
    (p : Person) (s : CapTableState) :
    ensurePerson (mapPerson ρ p) (mapState ρ s)
      = mapState ρ (ensurePerson p s) := by
  simp only [ensurePerson]
  rw [show (mapState ρ s).people = s.people.map (mapPerson ρ) from rfl,
    List.any_map]
  have : ((fun q => q.id == (mapPerson ρ p).id) ∘ mapPerson ρ)
      = fun q => q.id == p.id := by
    funext q
    simp only [Function.comp, mapPerson]
    exact beq_map hinj q.id p.id
  rw [this]
  by_cases hb : s.people.any (fun q => q.id == p.id) = true
  · rw [if_pos hb, if_pos hb]
  · rw [if_neg hb, if_neg hb, mapState_people_append]
    rfl

theorem mapShareClass_employeeOptions (cid : String) :
    mapShareClass ρ (employeeOptionsClass cid) = employeeOptionsClass (ρ cid) := rfl

theorem mapShareClass_incCommon (cid : String) (pps : Option ℚ) :
    mapShareClass ρ (incorporationCommonClass cid pps)
      = incorporationCommonClass (ρ cid) pps := rfl

theorem mapHolding_poolHolding (phid cid eid : String) (q : ℤ)
    (hs : ρ ESOP_POOL_HOLDER_ID = ESOP_POOL_HOLDER_ID) :
    mapHolding ρ (poolHoldingDef phid cid eid q)
      = poolHoldingDef (ρ phid) (ρ cid) (ρ eid) q := by
  simp [mapHolding, poolHoldingDef, hs]

theorem ensureOptionClass_equivariant (hinj : Function.Injective ρ)
    (g : Gen) (k : ℕ) (s : CapTableState) :
    ensureOptionClass (fun n => ρ (g n)) k (mapState ρ s)
      = (mapShareClass ρ (ensureOptionClass g k s).1,
         mapState ρ (ensureOptionClass g k s).2.1,
         (ensureOptionClass g k s).2.2) := by
  simp only [ensureOptionClass]
  rw [show (mapState ρ s).shareClasses = s.shareClasses.map (mapShareClass ρ) from rfl,
    find?_class_type_map]
  cases hoc : s.shareClasses.find? (fun sc => sc.type == ShareClassType.option) with
  | some oc => simp
  | none =>
    simp only [Option.map_none', fresh]
    rw [mapState_classes_append, mapShareClass_employeeOptions]
    rfl

theorem addPoolHolding_equivariant (hinj : Function.Injective ρ)
    (hs : ρ ESOP_POOL_HOLDER_ID = ESOP_POOL_HOLDER_ID)
    (g : Gen) (k : ℕ) (s : CapTableState) (eid : String)
    (heid : ρ eid = eid) (cid : String) (q : ℤ) :
    addPoolHolding (fun n => ρ (g n)) k (mapState ρ s) eid (ρ cid) q
      = (mapState ρ (addPoolHolding g k s eid cid q).1,
         (addPoolHolding g k s eid cid q).2) := by
  simp only [addPoolHolding]
  rw [show (mapState ρ s).holdings = s.holdings.map (mapHolding ρ) from rfl,
    pool_any_map hinj hs]
  by_cases hb : s.holdings.any (fun h => h.holderId == ESOP_POOL_HOLDER_ID &&
      h.shareClassId == cid) = true
  · rw [if_pos hb, if_pos hb]
    rw [updateFirst_quantity_map
      (fun h => h.holderId == ESOP_POOL_HOLDER_ID && h.shareClassId == ρ cid)
      (fun h => h.holderId == ESOP_POOL_HOLDER_ID && h.shareClassId == cid)
      (fun h => by
        simp only [mapHolding]
        rw [beq_map_fixed hinj hs, beq_map hinj])]
    rw [← mapState_set_holdings]
  · rw [if_neg hb, if_neg hb]
    simp only [fresh]
    rw [mapState_holdings_append, mapHolding_poolHolding _ _ _ _ hs, heid]
    rfl

theorem poolCreation_equivariant (hinj : Function.Injective ρ)
    (hs : ρ ESOP_POOL_HOLDER_ID = ESOP_POOL_HOLDER_ID)
    (g : Gen) (k : ℕ) (state : CapTableState) (event : EventBase)
    (hev : ρ event.id = event.id)
    (im : FounderInputMode) (pct : ℚ) (sh : ℤ) :
    applyESOPPoolCreation (fun n => ρ (g n)) k (mapState ρ state) event im pct sh
      = (applyESOPPoolCreation g k state event im pct sh).map
          (fun p => (mapState ρ p.1, p.2)) := by
  have hpp : mapPerson ρ poolPersonDef = poolPersonDef := by
    simp [mapPerson, poolPersonDef, hs]
  have h1 : ensurePerson poolPersonDef (mapState ρ state)
      = mapState ρ (ensurePerson poolPersonDef state) := by
    conv_lhs => rw [← hpp]
    exact ensurePerson_equivariant hinj _ _
  simp only [applyESOPPoolCreation, h1, ensureOptionClass_equivariant hinj,
    metrics_mapState hinj]
  cases him : im with
  | percentage =>
    simp only []
    cases hps : calculateESOPPoolFromPercent
        (calculatePreRoundMetrics
          (ensureOptionClass g k (ensurePerson poolPersonDef state)).2.1).1
        (pct / 100) with
    | error e => simp [Except.map]
    | ok poolShares =>
      simp only [Except.map]
      rw [show (mapShareClass ρ
          (ensureOptionClass g k (ensurePerson poolPersonDef state)).1).id
        = ρ (ensureOptionClass g k (ensurePerson poolPersonDef state)).1.id from rfl]
      rw [addPoolHolding_equivariant hinj hs g _ _ _ hev]
  | shares =>
    simp only [Except.map]
    rw [show (mapShareClass ρ
        (ensureOptionClass g k (ensurePerson poolPersonDef state)).1).id
      = ρ (ensureOptionClass g k (ensurePerson poolPersonDef state)).1.id from rfl]
    rw [addPoolHolding_equivariant hinj hs g _ _ _ hev]

theorem pool_find?_map (hinj : Function.Injective ρ)
    (hs : ρ ESOP_POOL_HOLDER_ID = ESOP_POOL_HOLDER_ID) (cid : String)
    (l : List SecurityHolding) :
    (l.map (mapHolding ρ)).find? (fun h => h.holderId == ESOP_POOL_HOLDER_ID &&
        h.shareClassId == ρ cid)
      = (l.find? (fun h => h.holderId == ESOP_POOL_HOLDER_ID &&
          h.shareClassId == cid)).map (mapHolding ρ) := by
  rw [List.find?_map]
  have hp : ((fun h => h.holderId == ESOP_POOL_HOLDER_ID &&
      h.shareClassId == ρ cid) ∘ mapHolding ρ)
      = fun h => h.holderId == ESOP_POOL_HOLDER_ID && h.shareClassId == cid := by
    funext h
    simp only [Function.comp, mapHolding]
    rw [beq_map_fixed hinj hs, beq_map hinj]
  rw [hp]

theorem updateFirst_setq_map (p q : SecurityHolding → Bool)
    (hp : ∀ h, p (mapHolding ρ h) = q h) (e : ℤ) (l : List SecurityHolding) :
    updateFirst p (fun h => { h with quantity := e }) (l.map (mapHolding ρ))
      = (updateFirst q (fun h => { h with quantity := e }) l).map
          (mapHolding ρ) :=
  updateFirst_map (mapHolding ρ) p q
    (fun h => { h with quantity := e })
    (fun h => { h with quantity := e }) hp (fun _ => rfl) l

theorem deductPool_equivariant (hinj : Function.Injective ρ)
    (hs : ρ ESOP_POOL_HOLDER_ID = ESOP_POOL_HOLDER_ID)
    (s : CapTableState) (cid : String) (q : ℤ) :
    deductPool (mapState ρ s) (ρ cid) q
      = (deductPool s cid q).map (mapState ρ) := by
  simp only [deductPool]
  rw [show (mapState ρ s).holdings = s.holdings.map (mapHolding ρ) from rfl,
    pool_find?_map hinj hs]
  cases hf : s.holdings.find? (fun h => h.holderId == ESOP_POOL_HOLDER_ID &&
      h.shareClassId == cid) with
  | none => simp [Except.map]
  | some ph =>
    simp only [Option.map_some']
    rw [show (mapHolding ρ ph).quantity = ph.quantity from rfl]
    by_cases hlt : ph.quantity < q
    · rw [if_pos hlt, if_pos hlt]
      simp [Except.map]
    · rw [if_neg hlt, if_neg hlt]
      rw [updateFirst_setq_map
        (fun h => h.holderId == ESOP_POOL_HOLDER_ID && h.shareClassId == ρ cid)
        (fun h => h.holderId == ESOP_POOL_HOLDER_ID && h.shareClassId == cid)
        (fun h => by
          simp only [mapHolding]
          rw [beq_map_fixed hinj hs, beq_map hinj])]
      simp [Except.map, mapState]

theorem addGrantSchedule_equivariant (hinj : Function.Injective ρ)
    (g : Gen) (k : ℕ) (s : CapTableState) (vsIdOpt : Option String)
    (vsOpt : Option VestingScheduleSpec)
    (hvs : ∀ i ∈ vsIdOpt, ρ i = i) :
    addGrantSchedule (fun n => ρ (g n)) k (mapState ρ s) vsIdOpt vsOpt
      = (Option.map ρ (addGrantSchedule g k s vsIdOpt vsOpt).1,
         mapState ρ (addGrantSchedule g k s vsIdOpt vsOpt).2.1,
         (addGrantSchedule g k s vsIdOpt vsOpt).2.2) := by
  cases vsOpt with
  | none =>
    simp only [addGrantSchedule, option_map_fixed _ hvs]
  | some vs =>
    cases vsIdOpt with
    | some i =>
      simp only [addGrantSchedule, Option.map_some', hvs i (by simp)]
    | none =>
      simp only [addGrantSchedule, fresh, Option.map_some']
      rw [mapState_schedules_append]
      simp [mapVestingSchedule]


theorem holder_class_find?_map (hinj : Function.Injective ρ) {x : String}
    (hx : ρ x = x) (cid : String) (pb : Bool → Bool)
    (l : List SecurityHolding) :
    (l.map (mapHolding ρ)).find? (fun h => h.holderId == x &&
        h.shareClassId == ρ cid && pb h.isOption)
      = (l.find? (fun h => h.holderId == x && h.shareClassId == cid &&
          pb h.isOption)).map (mapHolding ρ) := by
  rw [List.find?_map]
  have hp : ((fun h => h.holderId == x && h.shareClassId == ρ cid &&
      pb h.isOption) ∘ mapHolding ρ)
      = fun h => h.holderId == x && h.shareClassId == cid && pb h.isOption := by
    funext h
    simp only [Function.comp, mapHolding]
    rw [beq_map_fixed hinj hx, beq_map hinj]
  rw [hp]

theorem updateFirst_holder_class (hinj : Function.Injective ρ) {x : String}
    (hx : ρ x = x) (cid : String) (pb : Bool → Bool)
    (u : SecurityHolding → SecurityHolding)
    (hu : ∀ h, u (mapHolding ρ h) = mapHolding ρ (u h)) (l : List SecurityHolding) :
    updateFirst (fun h => h.holderId == x && h.shareClassId == ρ cid &&
        pb h.isOption) u (l.map (mapHolding ρ))
      = (updateFirst (fun h => h.holderId == x && h.shareClassId == cid &&
          pb h.isOption) u l).map (mapHolding ρ) :=
  updateFirst_map (mapHolding ρ) _ _ u u
    (fun h => by
      simp only [mapHolding]
      rw [beq_map_fixed hinj hx, beq_map hinj]) hu l

theorem exercise_equivariant (hinj : Function.Injective ρ)
    (g : Gen) (k : ℕ) (state : CapTableState) (event : EventBase)
    (hev : ρ event.id = event.id)
    (employeeId : String) (hemp : ρ employeeId = employeeId) (shares : ℤ) :
    applyOptionExercise (fun n => ρ (g n)) k (mapState ρ state) event
        employeeId shares
      = (applyOptionExercise g k state event employeeId shares).map
          (fun p => (mapState ρ p.1, p.2)) := by
  simp only [applyOptionExercise]
  rw [show (mapState ρ state).shareClasses
      = state.shareClasses.map (mapShareClass ρ) from rfl,
    find?_class_type_map, find?_class_type_map]
  cases hoc : state.shareClasses.find? (fun sc => sc.type == ShareClassType.option) with
  | none =>
    cases hcc : state.shareClasses.find? (fun sc => sc.type == ShareClassType.common) with
    | none => simp [Except.map]
    | some cc => simp [Except.map]
  | some oc =>
    cases hcc : state.shareClasses.find? (fun sc => sc.type == ShareClassType.common) with
    | none => simp [Except.map]
    | some cc =>
      simp only [Option.map_some']
      rw [show (mapState ρ state).holdings
          = state.holdings.map (mapHolding ρ) from rfl,
        show (mapShareClass ρ oc).id = ρ oc.id from rfl,
        holder_class_find?_map hinj hemp oc.id (fun b => b)]
      cases hoh : state.holdings.find? (fun h => h.holderId == employeeId &&
          h.shareClassId == oc.id && h.isOption) with
      | none => simp [Except.map]
      | some oh =>
        simp only [Option.map_some', vested_mapState hinj]
        by_cases hv : calculateVestedOptions oh event.date state < shares
        · rw [if_pos hv, if_pos hv]
          simp [Except.map]
        · rw [if_neg hv, if_neg hv]
          rw [show (mapHolding ρ oh).quantity = oh.quantity from rfl]
          rw [updateFirst_holder_class hinj hemp oc.id (fun b => b)
            (fun h => { h with quantity := oh.quantity - shares })
            (fun h => rfl)]
          rw [show (mapShareClass ρ cc).id = ρ cc.id from rfl,
            holder_class_find?_map hinj hemp cc.id (fun b => !b)]
          cases hch : (updateFirst (fun h => h.holderId == employeeId &&
              h.shareClassId == oc.id && h.isOption)
              (fun h => { h with quantity := oh.quantity - shares })
              state.holdings).find? (fun h => h.holderId == employeeId &&
                h.shareClassId == cc.id && !h.isOption) with
          | some ch =>
            simp only [Option.map_some']
            rw [updateFirst_holder_class hinj hemp cc.id (fun b => !b)
              (fun h => { h with quantity := h.quantity + shares })
              (fun h => rfl)]
            simp [Except.map, mapState]
          | none =>
            simp only [Option.map_none', fresh]
            simp [Except.map, mapState, mapHolding, hemp, hev]

theorem grant_equivariant (hinj : Function.Injective ρ)
    (hs : ρ ESOP_POOL_HOLDER_ID = ESOP_POOL_HOLDER_ID)
    (g : Gen) (k : ℕ) (state : CapTableState) (event : EventBase)
    (hev : ρ event.id = event.id)
    (employeeId employeeName : String) (hemp : ρ employeeId = employeeId)
    (grantMode : FounderInputMode) (percentage : Option ℚ) (shares : ℤ)
    (strikePrice : Option ℚ) (vsIdOpt : Option String)
    (vsOpt : Option VestingScheduleSpec) (vStartOpt : Option ℤ)
    (hvs : ∀ i ∈ vsIdOpt, ρ i = i) :
    applyESOPGrant (fun n => ρ (g n)) k (mapState ρ state) event
        employeeId employeeName grantMode percentage shares strikePrice
        vsIdOpt vsOpt vStartOpt
      = (applyESOPGrant g k state event employeeId employeeName grantMode
          percentage shares strikePrice vsIdOpt vsOpt vStartOpt).map
          (fun p => (mapState ρ p.1, p.2)) := by
  have hmp : grantEmployeePerson employeeId employeeName
      = mapPerson ρ (grantEmployeePerson employeeId employeeName) := by
    simp [mapPerson, grantEmployeePerson, hemp]
  simp only [applyESOPGrant]
  conv_lhs => rw [hmp]
  rw [ensurePerson_equivariant hinj]
  rw [show (mapState ρ (ensurePerson (grantEmployeePerson employeeId employeeName)
      state)).shareClasses
    = (ensurePerson (grantEmployeePerson employeeId employeeName)
        state).shareClasses.map (mapShareClass ρ) from rfl,
    find?_class_type_map]
  cases hoc : (ensurePerson (grantEmployeePerson employeeId employeeName)
      state).shareClasses.find? (fun sc => sc.type == ShareClassType.option) with
  | none => simp [Except.map]
  | some oc =>
    simp only [Option.map_some', metrics_mapState hinj]
    rw [show (mapShareClass ρ oc).id = ρ oc.id from rfl,
      deductPool_equivariant hinj hs]
    cases hdp : deductPool (ensurePerson
        (grantEmployeePerson employeeId employeeName) state) oc.id
        (if (grantMode == FounderInputMode.percentage && jsTruthy percentage) = true
         then jsRound ((percentage.getD 0) / 100 *
           (calculatePreRoundMetrics (ensurePerson
             (grantEmployeePerson employeeId employeeName) state)).2 /
             (1 - (percentage.getD 0) / 100))
         else shares) with
    | error e => simp [Except.map]
    | ok st2 =>
      simp only [Except.map, addGrantSchedule_equivariant hinj g k st2 vsIdOpt vsOpt hvs,
        fresh]
      rw [mapState_holdings_append]
      simp [mapHolding, hemp, hev]

theorem mapHolding_poolHolding_fixed {eid : String}
    (hs : ρ ESOP_POOL_HOLDER_ID = ESOP_POOL_HOLDER_ID) (heid : ρ eid = eid)
    (phid cid : String) (q : ℤ) :
    mapHolding ρ (poolHoldingDef phid cid eid q)
      = poolHoldingDef (ρ phid) (ρ cid) eid q := by
  simp [mapHolding, poolHoldingDef, hs, heid]

theorem addShareClass_equivariant (c : ShareClass) (s : CapTableState) :
    addShareClass (mapShareClass ρ c) (mapState ρ s)
      = mapState ρ (addShareClass c s) := by
  simp [addShareClass, mapState]

theorem appendHolding_equivariant (h : SecurityHolding) (s : CapTableState) :
    appendHolding (mapHolding ρ h) (mapState ρ s)
      = mapState ρ (appendHolding h s) := by
  simp [appendHolding, mapState]

theorem addPoolPersonIfEsop_equivariant
    (hs : ρ ESOP_POOL_HOLDER_ID = ESOP_POOL_HOLDER_ID)
    (esopPool : Option EsopPoolSpec) (s : CapTableState) :
    addPoolPersonIfEsop esopPool (mapState ρ s)
      = mapState ρ (addPoolPersonIfEsop esopPool s) := by
  simp only [addPoolPersonIfEsop]
  by_cases hp : esopPool.isSome = true
  · rw [if_pos hp, if_pos hp]
    simp [mapState, mapPerson, poolPersonDef, hs]
  · rw [if_neg hp, if_neg hp]

theorem incFounderStep_equivariant (hinj : Function.Injective ρ)
    (g : Gen) (ccid eid : String) (heid : ρ eid = eid)
    (alloc : List (String × ℤ)) (f : FounderSpec)
    (hf : ρ f.personId = f.personId) (acc : CapTableState × ℕ) :
    incorporationFounderStep (fun n => ρ (g n)) (ρ ccid) eid alloc
        (mapState ρ acc.1, acc.2) f
      = (mapState ρ (incorporationFounderStep g ccid eid alloc acc f).1,
         (incorporationFounderStep g ccid eid alloc acc f).2) := by
  simp only [incorporationFounderStep, fresh]
  have hmp : founderPersonDef f = mapPerson ρ (founderPersonDef f) := by
    simp [mapPerson, founderPersonDef, hf]
  conv_lhs => rw [hmp]
  rw [ensurePerson_equivariant hinj]
  rw [show founderHoldingDef (ρ (g acc.2)) f (ρ ccid) eid
      (((alloc.find? (fun a => a.1 == f.personId)).map Prod.snd).getD 0)
    = mapHolding ρ (founderHoldingDef (g acc.2) f ccid eid
      (((alloc.find? (fun a => a.1 == f.personId)).map Prod.snd).getD 0))
    from by simp [mapHolding, founderHoldingDef, hf, heid]]
  rw [appendHolding_equivariant]

theorem incorporation_equivariant (hinj : Function.Injective ρ)
    (hs : ρ ESOP_POOL_HOLDER_ID = ESOP_POOL_HOLDER_ID)
    (g : Gen) (k : ℕ) (state : CapTableState) (event : EventBase)
    (hev : ρ event.id = event.id)
    (tis : ℚ) (pps : Option ℚ) (fim : FounderInputMode)
    (founders : List FounderSpec) (esopPool : Option EsopPoolSpec)
    (hfix : ∀ s ∈ eventDataIds
      (EventData.incorporation tis pps fim founders esopPool), ρ s = s) :
    applyIncorporation (fun n => ρ (g n)) k (mapState ρ state) event
        tis pps fim founders esopPool
      = (applyIncorporation g k state event tis pps fim founders esopPool).map
          (fun p => (mapState ρ p.1, p.2)) := by
  have hf : ∀ f ∈ founders, ρ f.personId = f.personId := by
    intro f hfm
    refine hfix _ ?_
    simp only [eventDataIds]
    exact List.mem_map_of_mem _ hfm
  simp only [applyIncorporation, fresh]
  rw [← mapShareClass_incCommon (g k) pps, addShareClass_equivariant,
    addPoolPersonIfEsop_equivariant hs]
  rw [foldl_pair_hom (mapState ρ)
    (incorporationFounderStep g (g k) event.id
      (incorporationAllocations tis fim founders))
    (incorporationFounderStep (fun n => ρ (g n)) (ρ (g k)) event.id
      (incorporationAllocations tis fim founders))
    founders
    (fun acc f hfm => incFounderStep_equivariant hinj g (g k) event.id hev
      (incorporationAllocations tis fim founders) f (hf f hfm) acc)]
  cases esopPool with
  | none => simp [Except.map]
  | some pool =>
    simp only []
    rw [← mapShareClass_employeeOptions, addShareClass_equivariant]
    cases him : pool.inputMode with
    | percentage =>
      simp only []
      cases hpsE : calculateESOPPoolFromPercent
          ((((incorporationAllocations tis fim founders).map Prod.snd).sum : ℤ) : ℚ)
          (pool.percentage / 100) with
      | error e => simp [Except.map]
      | ok esopShares =>
        simp only [fresh, Except.map]
        rw [← mapHolding_poolHolding_fixed hs hev, appendHolding_equivariant]
    | shares =>
      simp only [fresh, Except.map]
      rw [← mapHolding_poolHolding_fixed hs hev, appendHolding_equivariant]

theorem list_map_fixed (l : List String) (hfl : ∀ i ∈ l, ρ i = i) :
    l.map ρ = l := by
  induction l with
  | nil => rfl
  | cons x xs ih =>
    simp only [List.map_cons, hfl x (by simp)]
    rw [ih (fun i hi => hfl i (by simp [hi]))]

theorem safes_filter_unconverted_map (l : List SAFE) :
    (l.map (mapSafe ρ)).filter (fun s => s.convertedInEventId.isNone)
      = (l.filter (fun s => s.convertedInEventId.isNone)).map (mapSafe ρ) := by
  rw [List.filter_map]
  have hp : ((fun s => s.convertedInEventId.isNone) ∘ mapSafe ρ)
      = fun s => s.convertedInEventId.isNone := by
    funext s
    simp [Function.comp, mapSafe]
  rw [hp]

theorem safes_find?_id_map (hinj : Function.Injective ρ) (i : String)
    (l : List SAFE) :
    (l.map (mapSafe ρ)).find? (fun s => s.id == ρ i)
      = (l.find? (fun s => s.id == i)).map (mapSafe ρ) := by
  rw [List.find?_map]
  have hp : ((fun s => s.id == ρ i) ∘ mapSafe ρ) = fun s => s.id == i := by
    funext s
    simp only [Function.comp, mapSafe]
    exact beq_map hinj s.id i
  rw [hp]

theorem mapPerson_safeInvestor (s : SAFE) :
    mapPerson ρ (safeInvestorPersonDef s)
      = safeInvestorPersonDef (mapSafe ρ s) := rfl

theorem mapHolding_investment {eid : String} (heid : ρ eid = eid)
    (hid hold cid : String) (q : ℤ) (inv : ℚ) :
    mapHolding ρ (investmentHoldingDef hid hold cid eid q inv)
      = investmentHoldingDef (ρ hid) (ρ hold) (ρ cid) eid q inv := by
  simp [mapHolding, investmentHoldingDef, heid]

theorem mapShareClass_pricedRoundClass (pcid nm : String) (rank : ℤ) (lpm : ℚ)
    (part : ParticipationType) (cap : Option ℚ) (pps : ℚ) :
    mapShareClass ρ (pricedRoundClassDef pcid nm rank lpm part cap pps)
      = pricedRoundClassDef (ρ pcid) nm rank lpm part cap pps := rfl

theorem classes_filter_type_length (l : List ShareClass) (t : ShareClassType) :
    ((l.map (mapShareClass ρ)).filter (fun sc => sc.type == t)).length
      = (l.filter (fun sc => sc.type == t)).length := by
  rw [List.filter_map]
  simp only [List.length_map]
  congr 1

theorem markSafeConverted_equivariant (hinj : Function.Injective ρ)
    {eid : String} (heid : ρ eid = eid) (i : String) (s : CapTableState) :
    markSafeConverted (ρ i) eid (mapState ρ s)
      = mapState ρ (markSafeConverted i eid s) := by
  simp only [markSafeConverted]
  rw [show (mapState ρ s).safes = s.safes.map (mapSafe ρ) from rfl,
    updateFirst_map (mapSafe ρ)
      (fun x => x.id == ρ i) (fun x => x.id == i)
      (fun x => { x with convertedInEventId := some eid })
      (fun x => { x with convertedInEventId := some eid })
      (fun x => beq_map hinj x.id i)
      (fun x => by simp [mapSafe, heid])]
  rw [← mapState_set_safes]

theorem convertSafeStep_equivariant (hinj : Function.Injective ρ)
    (g : Gen) (pcid : String) {eid : String} (heid : ρ eid = eid)
    (pps fd : ℚ) (i : String) (acc : CapTableState × ℕ) :
    convertSafeStep (fun n => ρ (g n)) (ρ pcid) eid pps fd
        (mapState ρ acc.1, acc.2) (ρ i)
      = (mapState ρ (convertSafeStep g pcid eid pps fd acc i).1,
         (convertSafeStep g pcid eid pps fd acc i).2) := by
  simp only [convertSafeStep]
  rw [show (mapState ρ acc.1).safes = acc.1.safes.map (mapSafe ρ) from rfl,
    safes_find?_id_map hinj]
  cases hf : acc.1.safes.find? (fun s => s.id == i) with
  | none => rfl
  | some safe =>
    simp only [Option.map_some']
    rw [show (mapSafe ρ safe).convertedInEventId.isSome
      = safe.convertedInEventId.isSome from by simp [mapSafe]]
    by_cases hc : safe.convertedInEventId.isSome = true
    · rw [if_pos hc, if_pos hc]
    · rw [if_neg hc, if_neg hc]
      simp only [fresh]
      rw [safeConversion_mapSafe]
      rw [← mapPerson_safeInvestor, ensurePerson_equivariant hinj]
      rw [show (mapSafe ρ safe).investorId = ρ safe.investorId from rfl,
        show (mapSafe ρ safe).principalAmount = safe.principalAmount from rfl]
      rw [← mapHolding_investment heid, appendHolding_equivariant,
        markSafeConverted_equivariant hinj heid]

theorem addInvestorStep_equivariant (hinj : Function.Injective ρ)
    (g : Gen) (pcid : String) {eid : String} (heid : ρ eid = eid)
    (dist : List (String × ℤ)) (inv : InvestorSpec)
    (hinv : ρ inv.personId = inv.personId) (acc : CapTableState × ℕ) :
    addInvestorStep (fun n => ρ (g n)) (ρ pcid) eid dist
        (mapState ρ acc.1, acc.2) inv
      = (mapState ρ (addInvestorStep g pcid eid dist acc inv).1,
         (addInvestorStep g pcid eid dist acc inv).2) := by
  simp only [addInvestorStep, fresh]
  have hmp : investorPersonDef inv = mapPerson ρ (investorPersonDef inv) := by
    simp [mapPerson, investorPersonDef, hinv]
  conv_lhs => rw [hmp]
  rw [ensurePerson_equivariant hinj]
  rw [show investmentHoldingDef (ρ (g acc.2)) inv.personId (ρ pcid) eid
      (((dist.find? (fun d => d.1 == inv.personId)).map Prod.snd).getD 0)
      inv.amount
    = mapHolding ρ (investmentHoldingDef (g acc.2) inv.personId pcid eid
      (((dist.find? (fun d => d.1 == inv.personId)).map Prod.snd).getD 0)
      inv.amount)
    from by simp [mapHolding, investmentHoldingDef, hinv, heid]]
  rw [appendHolding_equivariant]

theorem topUp_equivariant (hinj : Function.Injective ρ)
    (hs : ρ ESOP_POOL_HOLDER_ID = ESOP_POOL_HOLDER_ID)
    (s : CapTableState) (etp : Option ℚ) :
    pricedRoundEsopTopUp (mapState ρ s) etp
      = mapState ρ (pricedRoundEsopTopUp s etp) := by
  simp only [pricedRoundEsopTopUp]
  by_cases ht : jsTruthy etp = true
  case neg => rw [if_neg ht, if_neg ht]
  case pos =>
    rw [if_pos ht, if_pos ht]
    rw [show (mapState ρ s).shareClasses
        = s.shareClasses.map (mapShareClass ρ) from rfl,
      find?_class_type_map]
    cases hoc : s.shareClasses.find? (fun sc => sc.type == ShareClassType.option) with
    | none => simp
    | some oc =>
      simp only [Option.map_some', metrics_mapState hinj, pool_mapState hinj hs]
      by_cases hx : 0 < calculateESOPExtension (calculatePreRoundMetrics s).2
          ((getUnallocatedESOPPool s : ℤ) : ℚ) ((etp.getD 0) / 100)
      · rw [if_pos hx, if_pos hx]
        rw [show (mapState ρ s).holdings
            = s.holdings.map (mapHolding ρ) from rfl,
          updateFirst_quantity_map
            (fun h => h.holderId == ESOP_POOL_HOLDER_ID && h.isOption)
            (fun h => h.holderId == ESOP_POOL_HOLDER_ID && h.isOption)
            (fun h => by
              simp only [mapHolding]
              rw [beq_map_fixed hinj hs])]
        simp [mapState]
      · rw [if_neg hx, if_neg hx]

theorem safes_ids_map (l : List SAFE) :
    (l.map (mapSafe ρ)).map (fun s => s.id) = (l.map (fun s => s.id)).map ρ := by
  simp [List.map_map, Function.comp, mapSafe]

theorem pricedRoundTail_equivariant (hinj : Function.Injective ρ)
    (hs : ρ ESOP_POOL_HOLDER_ID = ESOP_POOL_HOLDER_ID)
    (g : Gen) {eid : String} (heid : ρ eid = eid)
    (pcid : String) (price fd : ℚ) (cids : List String) (S1 : CapTableState)
    (k1 : ℕ) (investors : List InvestorSpec) (etp : Option ℚ)
    (hinvs : ∀ inv ∈ investors, ρ inv.personId = inv.personId) :
    (let stk := (cids.map ρ).foldl
        (convertSafeStep (fun n => ρ (g n)) (ρ pcid) eid price fd)
        (mapState ρ S1, k1)
     let investorsF := investors.filter (fun inv => 0 < inv.amount)
     let totalCashActual := (investorsF.map (fun i => i.amount)).sum
     let totalNewShares : ℚ :=
       if totalCashActual = 0 then 0 else totalCashActual / price
     let stk2 := if investorsF = [] ∨ totalCashActual = 0 then stk
       else investorsF.foldl
         (addInvestorStep (fun n => ρ (g n)) (ρ pcid) eid
           (distributeSharesByLargestRemainder (roundShares totalNewShares)
             (investorsF.map (fun inv => (inv.personId, inv.amount / totalCashActual)))))
         stk
     (Except.ok (pricedRoundEsopTopUp stk2.1 etp, stk2.2) :
       Except String (CapTableState × ℕ)))
    = Except.map (fun p : CapTableState × ℕ => (mapState ρ p.1, p.2))
      (let stk := cids.foldl (convertSafeStep g pcid eid price fd) (S1, k1)
       let investorsF := investors.filter (fun inv => 0 < inv.amount)
       let totalCashActual := (investorsF.map (fun i => i.amount)).sum
       let totalNewShares : ℚ :=
         if totalCashActual = 0 then 0 else totalCashActual / price
       let stk2 := if investorsF = [] ∨ totalCashActual = 0 then stk
         else investorsF.foldl
           (addInvestorStep g pcid eid
             (distributeSharesByLargestRemainder (roundShares totalNewShares)
               (investorsF.map (fun inv => (inv.personId, inv.amount / totalCashActual)))))
           stk
       (Except.ok (pricedRoundEsopTopUp stk2.1 etp, stk2.2) :
         Except String (CapTableState × ℕ))) := by
  simp only []
  rw [List.foldl_map, foldl_pair_hom (mapState ρ)
    (convertSafeStep g pcid eid price fd)
    (fun acc i => convertSafeStep (fun n => ρ (g n)) (ρ pcid) eid price fd acc (ρ i))
    cids
    (fun acc i _ => convertSafeStep_equivariant hinj g pcid heid price fd i acc)
    S1 k1]
  generalize hF : investors.filter (fun inv => decide ((0:ℚ) < inv.amount)) = invF
  have hinvs2 : ∀ inv ∈ invF, ρ inv.personId = inv.personId :=
    fun inv him => hinvs inv (List.mem_of_mem_filter (hF ▸ him))
  generalize hTCA : (invF.map (fun i => i.amount)).sum = tca
  generalize hD : distributeSharesByLargestRemainder
    (roundShares (if tca = 0 then 0 else tca / price))
    (invF.map (fun inv => (inv.personId, inv.amount / tca))) = dist
  by_cases hE : (invF = [] ∨ tca = 0)
  · rw [if_pos hE, if_pos hE, topUp_equivariant hinj hs]
    simp [Except.map]
  · rw [if_neg hE, if_neg hE]
    rw [foldl_pair_hom (mapState ρ) (addInvestorStep g pcid eid dist)
      (addInvestorStep (fun n => ρ (g n)) (ρ pcid) eid dist) invF
      (fun acc inv him => addInvestorStep_equivariant hinj g pcid heid dist inv
        (hinvs2 inv him) acc)]
    rw [topUp_equivariant hinj hs]
    simp [Except.map]

theorem pricedRound_equivariant (hinj : Function.Injective ρ)
    (hs : ρ ESOP_POOL_HOLDER_ID = ESOP_POOL_HOLDER_ID)
    (g : Gen) (k : ℕ) (state : CapTableState) (event : EventBase)
    (hev : ρ event.id = event.id)
    (vit : ValuationInputType) (pmv premv pin : Option ℚ) (tnm : ℚ)
    (investors : List InvestorSpec) (scio : Option String) (cnsc : Bool)
    (scn : Option String) (lp : Option ℚ) (po : Option ParticipationType)
    (pc : Option ℚ) (etp : Option ℚ) (stco : Option (List String))
    (hfix : ∀ s ∈ eventDataIds (EventData.pricedRound vit pmv premv pin tnm
      investors scio cnsc scn lp po pc etp stco), ρ s = s) :
    applyPricedRound (fun n => ρ (g n)) k (mapState ρ state) event
        vit pmv premv pin tnm investors scio cnsc scn lp po pc etp stco
      = (applyPricedRound g k state event
          vit pmv premv pin tnm investors scio cnsc scn lp po pc etp stco).map
          (fun p => (mapState ρ p.1, p.2)) := by
  have hinvs : ∀ inv ∈ investors, ρ inv.personId = inv.personId := by
    intro inv hm
    refine hfix _ ?_
    simp only [eventDataIds, List.mem_append]
    exact Or.inl (Or.inl (List.mem_map_of_mem _ hm))
  have hscio : ∀ i ∈ scio, ρ i = i := by
    intro i hm
    refine hfix _ ?_
    simp only [eventDataIds, List.mem_append]
    exact Or.inl (Or.inr (by simp [Option.mem_toList, hm]))
  have hstco : ∀ i ∈ stco.getD [], ρ i = i := by
    intro i hm
    refine hfix _ ?_
    simp only [eventDataIds, List.mem_append]
    exact Or.inr hm
  simp only [applyPricedRound, fresh, metrics_mapState hinj]
  rw [show (mapState ρ state).safes = state.safes.map (mapSafe ρ) from rfl,
    safes_filter_unconverted_map, safes_ids_map]
  have hstc2 : stco.getD
        (((state.safes.filter (fun s => s.convertedInEventId.isNone)).map
          (fun s => s.id)).map ρ)
      = (stco.getD ((state.safes.filter (fun s => s.convertedInEventId.isNone)).map
          (fun s => s.id))).map ρ := by
    cases stco with
    | none => rfl
    | some l => exact (list_map_fixed l (by simpa using hstco)).symm
  rw [hstc2]
  have hconv : (List.filter (fun s => s.convertedInEventId.isNone)
      (List.filterMap
        (fun i => List.find? (fun s => s.id == i) (state.safes.map (mapSafe ρ)))
        ((stco.getD ((state.safes.filter
          (fun s => s.convertedInEventId.isNone)).map (fun s => s.id))).map ρ)))
    = (List.filter (fun s => s.convertedInEventId.isNone)
        (List.filterMap (fun i => List.find? (fun s => s.id == i) state.safes)
          (stco.getD ((state.safes.filter
            (fun s => s.convertedInEventId.isNone)).map (fun s => s.id))))).map
        (mapSafe ρ) := by
    rw [List.filterMap_map]
    have h1 : ((fun i => List.find? (fun s => s.id == i)
        (state.safes.map (mapSafe ρ))) ∘ ρ)
        = fun i => (List.find? (fun s => s.id == i) state.safes).map (mapSafe ρ) := by
      funext i
      simp only [Function.comp]
      exact safes_find?_id_map hinj i state.safes
    rw [h1, ← List.map_filterMap, safes_filter_unconverted_map]
  rw [hconv, iterateRoundPrice_map]
  rw [show (mapState ρ state).shareClasses
      = state.shareClasses.map (mapShareClass ρ) from rfl,
    classes_filter_type_length]
  by_cases hnew : (scio.isNone || cnsc) = true
  case pos =>
    rw [if_pos hnew, if_pos hnew]
    rw [show pricedRoundClassDef (ρ (g k))
        (scn.getD (seriesName (List.filter
          (fun sc => sc.type == ShareClassType.preferred) state.shareClasses).length))
        ((List.filter (fun sc => sc.type == ShareClassType.preferred)
          state.shareClasses).length + 1)
        (jsOrOpt lp 1) (po.getD ParticipationType.non_participating) pc
      = fun pps => mapShareClass ρ (pricedRoundClassDef (g k)
        (scn.getD (seriesName (List.filter
          (fun sc => sc.type == ShareClassType.preferred) state.shareClasses).length))
        ((List.filter (fun sc => sc.type == ShareClassType.preferred)
          state.shareClasses).length + 1)
        (jsOrOpt lp 1) (po.getD ParticipationType.non_participating) pc pps)
      from rfl]
    rw [addShareClass_equivariant]
    exact pricedRoundTail_equivariant hinj hs g hev (g k) _ _ _ _ _ investors etp hinvs
  case neg =>
    rw [if_neg hnew, if_neg hnew]
    cases hsc2 : scio with
    | none => exact absurd (by simp [hsc2]) hnew
    | some i =>
      have hii : ρ i = i := hscio i (by simp [hsc2])
      simp only [Option.getD_some]
      conv_lhs => rw [show i = ρ i from hii.symm]
      exact pricedRoundTail_equivariant hinj hs g hev i _ _ _ _ _ investors etp hinvs

theorem stampAsOf_equivariant (event : EventBase) (hev : ρ event.id = event.id)
    (s : CapTableState) :
    stampAsOf event (mapState ρ s) = mapState ρ (stampAsOf event s) := by
  simp [stampAsOf, mapState, hev]

theorem applyEvent_equivariant (hinj : Function.Injective ρ)
    (hs : ρ ESOP_POOL_HOLDER_ID = ESOP_POOL_HOLDER_ID)
    (g : Gen) (state : CapTableState) (event : EventBase) (k : ℕ)
    (hfix : ∀ s ∈ eventIds event, ρ s = s) :
    applyEvent (fun n => ρ (g n)) (mapState ρ state) event k
      = (applyEvent g state event k).map (fun p => (mapState ρ p.1, p.2)) := by
  have hev : ρ event.id = event.id := hfix _ (by simp [eventIds])
  have hdata : ∀ s ∈ eventDataIds event.data, ρ s = s :=
    fun s hm => hfix s (by simp [eventIds, hm])
  simp only [applyEvent, stampAsOf_equivariant event hev]
  cases hd : event.data with
  | incorporation a b c d e =>
    exact incorporation_equivariant hinj hs g k _ event hev a b c d e (hd ▸ hdata)
  | pricedRound a b c d e f h i j l m n o p =>
    exact pricedRound_equivariant hinj hs g k _ event hev a b c d e f h i j l m n o p
      (hd ▸ hdata)
  | safeIssuance sfs =>
    exact safeIssuance_equivariant hinj g k _ event sfs (hd ▸ hdata)
  | esopPoolCreation a b c =>
    exact poolCreation_equivariant hinj hs g k _ event hev a b c
  | esopPoolExtension t =>
    show Except.map (fun s => (s, k))
        (applyESOPPoolExtension (mapState ρ (stampAsOf event state)) t)
      = Except.map (fun p => (mapState ρ p.1, p.2))
        (Except.map (fun s => (s, k))
          (applyESOPPoolExtension (stampAsOf event state) t))
    rw [poolExtension_equivariant hinj hs]
    cases applyESOPPoolExtension (stampAsOf event state) t <;> simp [Except.map]
  | esopGrant a b c d e f h i j =>
    have hdata2 : ∀ s ∈ eventDataIds (EventData.esopGrant a b c d e f h i j),
        ρ s = s := hd ▸ hdata
    refine grant_equivariant hinj hs g k _ event hev a b ?_ c d e f h i j ?_
    · exact hdata2 a (by simp [eventDataIds])
    · intro i2 hi2
      exact hdata2 i2 (by simp [eventDataIds, Option.mem_toList, hi2])
  | optionExercise a b =>
    have hdata2 : ∀ s ∈ eventDataIds (EventData.optionExercise a b),
        ρ s = s := hd ▸ hdata
    exact exercise_equivariant hinj g k _ event hev a
      (hdata2 a (by simp [eventDataIds])) b

theorem replayStep_error (g : Gen) (event : EventBase) (msg : String) :
    replayStep g (Except.error msg) event = Except.error msg := rfl

theorem replay_foldl_error (g : Gen) (events : List EventBase) (msg : String) :
    events.foldl (replayStep g) (Except.error msg) = Except.error msg := by
  induction events with
  | nil => rfl
  | cons e es ih => simp only [List.foldl, replayStep_error, ih]

theorem replay_foldl_equivariant (hinj : Function.Injective ρ)
    (hs : ρ ESOP_POOL_HOLDER_ID = ESOP_POOL_HOLDER_ID)
    (g : Gen) :
    ∀ (events : List EventBase),
      (∀ e ∈ events, ∀ s ∈ eventIds e, ρ s = s) →
      ∀ (st : CapTableState) (k : ℕ) (snaps : List Snapshot),
      events.foldl (replayStep (fun n => ρ (g n)))
          (Except.ok (mapAccum ρ (st, k, snaps)))
        = (events.foldl (replayStep g) (Except.ok (st, k, snaps))).map
            (mapAccum ρ) := by
  intro events
  induction events with
  | nil => intro _ st k snaps; rfl
  | cons e es ih =>
    intro hfix st k snaps
    have hfe : ∀ s ∈ eventIds e, ρ s = s := hfix e (List.mem_cons_self e es)
    have hfes : ∀ e2 ∈ es, ∀ s ∈ eventIds e2, ρ s = s :=
      fun e2 hm => hfix e2 (List.mem_cons_of_mem e hm)
    simp only [List.foldl]
    cases happ : applyEvent g st e k with
    | error msg =>
      have h1 : replayStep (fun n => ρ (g n))
          (Except.ok (mapAccum ρ (st, k, snaps))) e = Except.error msg := by
        simp only [replayStep, mapAccum,
          applyEvent_equivariant hinj hs g st e k hfe, happ, Except.map]
      have h2 : replayStep g (Except.ok (st, k, snaps)) e = Except.error msg := by
        simp only [replayStep, happ]
      rw [h1, h2, replay_foldl_error, replay_foldl_error]
      simp [Except.map]
    | ok p =>
      obtain ⟨st2, k2⟩ := p
      have h1 : replayStep (fun n => ρ (g n))
          (Except.ok (mapAccum ρ (st, k, snaps))) e
          = Except.ok (mapAccum ρ
              (st2, k2, snaps ++ [⟨e.id, e.date, e.label, st2⟩])) := by
        simp only [replayStep, mapAccum,
          applyEvent_equivariant hinj hs g st e k hfe, happ, Except.map]
        simp [mapSnapshot]
      have h2 : replayStep g (Except.ok (st, k, snaps)) e
          = Except.ok (st2, k2, snaps ++ [⟨e.id, e.date, e.label, st2⟩]) := by
        simp only [replayStep, happ]
      rw [h1, h2, ih hfes]

theorem replayAllEvents_equivariant (hinj : Function.Injective ρ)
    (hs : ρ ESOP_POOL_HOLDER_ID = ESOP_POOL_HOLDER_ID)
    (g : Gen) (cid : String) (hcid : ρ cid = cid)
    (events : List EventBase)
    (hfix : ∀ e ∈ events, ∀ s ∈ eventIds e, ρ s = s) :
    replayAllEvents (fun n => ρ (g n)) cid events
      = (replayAllEvents g cid events).map (mapReplayResult ρ) := by
  simp only [replayAllEvents]
  have hfix2 : ∀ e ∈ List.insertionSort (fun a b => a.date ≤ b.date) events,
      ∀ s ∈ eventIds e, ρ s = s := by
    intro e he
    exact hfix e ((List.perm_insertionSort _ events).mem_iff.mp he)
  have hinit : mapState ρ (createInitialState cid) = createInitialState cid := by
    simp [mapState, createInitialState, hcid]
  conv_lhs => rw [show (Except.ok (createInitialState cid, 0, ([] : List Snapshot))
      : Except String (CapTableState × ℕ × List Snapshot))
      = Except.ok (mapAccum ρ (createInitialState cid, 0, [])) from by
    simp [mapAccum, hinit]]
  rw [replay_foldl_equivariant hinj hs g _ hfix2 (createInitialState cid) 0 []]
  cases hres : (List.insertionSort (fun a b => a.date ≤ b.date) events).foldl
      (replayStep g) (Except.ok (createInitialState cid, 0, [])) with
  | error msg => simp [Except.map]
  | ok r => simp [Except.map, mapAccum, mapReplayResult]

end Equivariance

/-- C4 counterexample: replay output is not independent of the identifier
source. The same single incorporation event replayed with streams A and B
yields share-class ids A0 and B0 respectively, so the two results differ. -/
theorem replay_stream_counterexample :
    (replayAllEvents c4StreamA "c" [c4Event]).map
        (fun r => r.finalState.shareClasses.map (fun sc => sc.id))
      = Except.ok ["A0"]
    ∧ (replayAllEvents c4StreamB "c" [c4Event]).map
        (fun r => r.finalState.shareClasses.map (fun sc => sc.id))
      = Except.ok ["B0"]
    ∧ replayAllEvents c4StreamA "c" [c4Event]
      ≠ replayAllEvents c4StreamB "c" [c4Event] := by
  have hA : (replayAllEvents c4StreamA "c" [c4Event]).map
      (fun r => r.finalState.shareClasses.map (fun sc => sc.id))
      = Except.ok ["A0"] := by rfl
  have hB : (replayAllEvents c4StreamB "c" [c4Event]).map
      (fun r => r.finalState.shareClasses.map (fun sc => sc.id))
      = Except.ok ["B0"] := by rfl
  refine ⟨hA, hB, fun h => ?_⟩
  rw [h] at hA
  rw [hA] at hB
  exact (by decide : ¬ ((["A0"] : List String) = ["B0"])) (Except.ok.inj hB)

/-- C4 (amended): replay is deterministic up to an admissible renaming of the
generated identifiers. For every renaming ρ that is injective, fixes the pool
sentinel holder id, fixes every identifier mentioned by the events and fixes
the company id, replaying with the renamed identifier stream yields exactly
the renamed replay result: every field of the two final states and snapshot
lists agrees after pushing ρ through the generated identifiers. -/
theorem replay_deterministic_up_to_renaming (ρ : String → String) (g : Gen)
    (cid : String) (events : List EventBase)
    (hadm : admissibleRenaming ρ events) (hcid : ρ cid = cid) :
    replayAllEvents (fun n => ρ (g n)) cid events
      = (replayAllEvents g cid events).map (mapReplayResult ρ) := by
  obtain ⟨hinj, hs, hfix⟩ := hadm
  exact replayAllEvents_equivariant hinj hs g cid hcid events hfix

/-- C4 witness: the identity renaming is admissible for the concrete
incorporation event, and the equivariance theorem holds at it. -/
theorem replay_deterministic_up_to_renaming_witness :
    admissibleRenaming (fun s => s) [c4Event] ∧ (fun s => s) "c" = "c"
    ∧ replayAllEvents (fun n => (fun s => s) (c4StreamA n)) "c" [c4Event]
      = (replayAllEvents c4StreamA "c" [c4Event]).map
          (mapReplayResult (fun s => s)) :=
  ⟨⟨fun a b h => h, rfl, fun e _ s _ => rfl⟩, rfl,
   replay_deterministic_up_to_renaming (fun s => s) c4StreamA "c" [c4Event]
     ⟨fun a b h => h, rfl, fun e _ s _ => rfl⟩ rfl⟩
